import Mathlib

/-!
# Verification of the rediserde RESP2/RESP3 codec

Shallow embedding of the `rediserde` crate: a serde serializer/deserializer
for the Redis RESP wire format.  Bytes are modelled as `Nat` (values < 256),
Rust byte slices as `List Nat`.  Rust `String`s are modelled by their UTF-8
byte content (a `List Nat`); the UTF-8 well-formedness that Rust's `String`
type guarantees by construction is a domain assumption noted at each use.

The decode engine (`src/de.rs`) holds a borrowed shrinking slice
`input : &'de [u8]` behind `&mut self`.  We model every decoding operation as
a state-passing function `List Nat → Except Fail α × List Nat`: the final
state is the remaining input, returned both on success and on failure,
exactly as the Rust cursor is left in place when an `Err` is returned.
`Fail.panicked` models a Rust panic (reachable: `parse_bulk_string` slices
`&self.input[..length]` without a bounds check).

The encode engine (`src/ser.rs`) appends to a `Vec<u8>`; we model each
serialize entry point by the byte string it appends, and whole-value
encoding as a recursive function over the generic data model.
-/

namespace Rediserde

/-- Error taxonomy, from `src/error.rs` (`enum Error`).  The `found` byte of
`UnexpectedByte` is the code of the `char` the Rust code reports. -/
inductive Err where
  | SerializeError (msg : String)
  | DeserializeError (msg : String)
  | UnexpectedEnd
  | UnexpectedByte (expected : String) (found : Nat)
  | UnrecognizedStart
  | InvalidUtf8
  | ExpectedLength
deriving Repr, DecidableEq

/-- Outcome of a decoding step: a returned `Err`, or a Rust panic
(slice-index out of bounds), which the Rust type system does not surface in
`Result` but which we must model to be faithful. -/
inductive Fail where
  | err (e : Err)
  | panicked
deriving Repr, DecidableEq

/-- The decode-engine monad: state is the remaining input slice.  On error
the state is whatever the cursor had advanced to, mirroring `&mut self`. -/
def Dec (α : Type) : Type := List Nat → Except Fail α × List Nat

def Dec.pure {α : Type} (a : α) : Dec α := fun s => (.ok a, s)

def Dec.bind {α β : Type} (m : Dec α) (f : α → Dec β) : Dec β := fun s =>
  match m s with
  | (.ok a, s1) => f a s1
  | (.error e, s1) => (.error e, s1)

instance : Monad Dec where
  pure := Dec.pure
  bind := Dec.bind

/-- Return the given `Error` without consuming input. -/
def Dec.fail {α : Type} (e : Err) : Dec α := fun s => (.error (.err e), s)

/-- Model of a Rust panic: aborts with `panicked`, cursor untouched. -/
def Dec.panicStop {α : Type} : Dec α := fun s => (.error .panicked, s)

/-- `Deserializer::next_byte` (de.rs): pop the first byte or `UnexpectedEnd`. -/
def next_byte : Dec Nat := fun s =>
  match s with
  | b :: rest => (.ok b, rest)
  | [] => (.error (.err .UnexpectedEnd), [])

/-- `self.input.first()` peeking used by `deserialize_any`/`deserialize_seq`/
`deserialize_map`/`deserialize_enum`: look at the first byte without
consuming it. -/
def peek_byte : Dec Nat := fun s =>
  match s with
  | b :: rest => (.ok b, b :: rest)
  | [] => (.error (.err .UnexpectedEnd), [])

/-- CRLF terminator bytes (`CRLF` in lib.rs). -/
def CRLF : List Nat := [13, 10]

/-- `Deserializer::expect_byte` (de.rs): consume one byte, demand equality. -/
def expect_byte (expected : Nat) : Dec Unit := do
  let first ← next_byte
  if first = expected then pure ()
  else Dec.fail (.UnexpectedByte (Char.ofNat expected).toString first)

/-- `Deserializer::expect_crlf` (de.rs): consume a CRLF, or report
`UnexpectedEnd` on empty input / `UnexpectedByte` otherwise. -/
def expect_crlf : Dec Unit := fun s =>
  match s with
  | 13 :: 10 :: rest => (.ok (), rest)
  | [] => (.error (.err .UnexpectedEnd), [])
  | b :: rest => (.error (.err (.UnexpectedByte "\r\n" b)), b :: rest)

/-- `u8::is_ascii_digit`. -/
def isDigitB (b : Nat) : Bool := 48 ≤ b && b ≤ 57

/-- `Iterator::position`: index of the first element satisfying `p`. -/
def position (p : Nat → Bool) : List Nat → Option Nat
  | [] => none
  | b :: rest => if p b then some 0 else (position p rest).map (· + 1)

/-- Value of a big-endian ASCII-decimal digit string, as computed by
`str::parse::<usize>` on a digit-only string. -/
def digitsVal (l : List Nat) : Nat := l.foldl (fun a b => a * 10 + (b - 48)) 0

/-- `usize::MAX` on the 64-bit targets the crate builds for. -/
def USIZE_MAX : Nat := 2 ^ 64 - 1

/-- `Deserializer::expect_length` (de.rs): scan a run of ASCII digits,
advance past them, and parse them as `usize`; any failure (no non-digit
terminator, empty digit run, overflow) is `ExpectedLength`. -/
def expect_length : Dec Nat := fun s =>
  match position (fun b => !(isDigitB b)) s with
  | none => (.error (.err .ExpectedLength), s)
  | some i =>
    let ds := s.take i
    let s1 := s.drop i
    if ds.isEmpty then (.error (.err .ExpectedLength), s1)
    else if digitsVal ds ≤ USIZE_MAX then (.ok (digitsVal ds), s1)
    else (.error (.err .ExpectedLength), s1)

/-- `input.windows(2).position(|w| w == CRLF)`: index of the first CRLF. -/
def crlfIdx? : List Nat → Option Nat
  | 13 :: 10 :: _ => some 0
  | _ :: rest => (crlfIdx? rest).map (· + 1)
  | [] => none

/-- `Deserializer::parse_simple_string` (de.rs): take the text before the
first CRLF (error `UnexpectedEnd` if there is none or it is empty), then
consume the CRLF.  Rust additionally validates UTF-8 via
`String::from_utf8`; with strings modelled as their byte content that
validation is the identity on the valid-UTF-8 domain. -/
def parse_simple_string : Dec (List Nat) := fun s =>
  match crlfIdx? s with
  | none => (.error (.err .UnexpectedEnd), s)
  | some i =>
    let result := s.take i
    let s1 := s.drop i
    if result.isEmpty then (.error (.err .UnexpectedEnd), s1)
    else (do expect_crlf; Pure.pure result : Dec (List Nat)) s1

/-- The slice `&self.input[..length]` / `&self.input[length..]` of
`parse_bulk_string`.  Rust PANICS when `length` exceeds the slice length —
there is no bounds check — so the model aborts with `panicked` there. -/
def bulk_take (length : Nat) : Dec (List Nat) := fun s =>
  if length ≤ s.length then (.ok (s.take length), s.drop length)
  else (.error .panicked, s)

/-- `Deserializer::parse_bulk_string` (de.rs): `-1\r\n` is the null-string
sentinel decoding to the empty string; otherwise read a length, a CRLF,
exactly `length` payload bytes, and a trailing CRLF. -/
def parse_bulk_string : Dec (List Nat) := fun s =>
  if [45, 49, 13, 10].isPrefixOf s then (.ok [], s.drop 4)
  else
    (do
      let length ← expect_length
      expect_crlf
      let data ← bulk_take length
      expect_crlf
      Pure.pure data : Dec (List Nat)) s

/-- The 15 RESP wire tags, from `src/resp.rs` (`enum RespDataKind`). -/
inductive RespDataKind where
  | SimpleString | SimpleError | Integer | BulkString | Array
  | Null | Boolean | Float | BigNumber | BulkError
  | VerbatimString | Map | Attributes | Set | Push
deriving Repr, DecidableEq

/-- `RespDataKind::to_prefix_bytes` (resp.rs): tag → ASCII prefix byte. -/
def RespDataKind.toPrefixByte : RespDataKind → Nat
  | .SimpleString => 43
  | .SimpleError => 45
  | .Integer => 58
  | .BulkString => 36
  | .Array => 42
  | .Null => 95
  | .Boolean => 35
  | .Float => 44
  | .BigNumber => 40
  | .BulkError => 33
  | .VerbatimString => 61
  | .Map => 37
  | .Attributes => 124
  | .Set => 126
  | .Push => 62

/-- `RespDataKind::from_prefix_bytes` (resp.rs): prefix byte → tag. -/
def prefixToKind? (b : Nat) : Option RespDataKind :=
  match b with
  | 43 => some .SimpleString
  | 45 => some .SimpleError
  | 58 => some .Integer
  | 36 => some .BulkString
  | 42 => some .Array
  | 95 => some .Null
  | 35 => some .Boolean
  | 44 => some .Float
  | 40 => some .BigNumber
  | 33 => some .BulkError
  | 61 => some .VerbatimString
  | 37 => some .Map
  | 124 => some .Attributes
  | 126 => some .Set
  | 62 => some .Push
  | _ => none

/-- The string-family tags accepted by `parse_string` via the simple path
and by `deserialize_enum` for unit variants. -/
def RespDataKind.isStringFamily : RespDataKind → Bool
  | .SimpleString | .SimpleError | .BulkString | .BulkError | .VerbatimString => true
  | _ => false

/-- `Deserializer::parse_string` (de.rs): dispatch on the consumed tag byte;
simple/numeric tags read up to CRLF, bulk-family tags read length-framed
payloads, anything else is rejected. -/
def parse_string : Dec (List Nat) := do
  let first ← next_byte
  match prefixToKind? first with
  | none => Dec.fail .UnrecognizedStart
  | some kind =>
    match kind with
    | .SimpleString | .SimpleError | .Integer | .BigNumber | .Float =>
      parse_simple_string
    | .BulkString | .BulkError | .VerbatimString =>
      parse_bulk_string
    | _ => Dec.fail (.UnexpectedByte "A string or number prefix" first)

/-- `VALID_NUMERIC_CHARS` (de.rs): `0123456789+-.eE`. -/
def isNumericChar (b : Nat) : Bool :=
  isDigitB b || b == 43 || b == 45 || b == 46 || b == 101 || b == 69

/-- The numeric-token scan of `parse_number`: bytes up to the first
non-numeric character; `UnexpectedEnd` if every remaining byte is numeric. -/
def scan_numeric : Dec (List Nat) := fun s =>
  match position (fun b => !(isNumericChar b)) s with
  | none => (.error (.err .UnexpectedEnd), s)
  | some i => (.ok (s.take i), s.drop i)

/-- The numeric target widths of the `Deserializer`/`Serializer` impls.
`i128`/`u128` never reach `parse_number`: serde's default
`deserialize_i128`/`deserialize_u128` (not overridden in de.rs, and asserted
to fail by the crate's own tests) reject them up front. -/
inductive NumWidth where
  | i8 | i16 | i32 | i64 | u8 | u16 | u32 | u64 | i128 | u128
deriving Repr, DecidableEq

def NumWidth.signed : NumWidth → Bool
  | .i8 | .i16 | .i32 | .i64 | .i128 => true
  | _ => false

def NumWidth.lo : NumWidth → Int
  | .i8 => -(2 ^ 7)
  | .i16 => -(2 ^ 15)
  | .i32 => -(2 ^ 31)
  | .i64 => -(2 ^ 63)
  | .i128 => -(2 ^ 127)
  | _ => 0

def NumWidth.hi : NumWidth → Int
  | .i8 => 2 ^ 7 - 1
  | .i16 => 2 ^ 15 - 1
  | .i32 => 2 ^ 31 - 1
  | .i64 => 2 ^ 63 - 1
  | .i128 => 2 ^ 127 - 1
  | .u8 => 2 ^ 8 - 1
  | .u16 => 2 ^ 16 - 1
  | .u32 => 2 ^ 32 - 1
  | .u64 => 2 ^ 64 - 1
  | .u128 => 2 ^ 128 - 1

/-- A nonempty all-digit run parsed to its value, else `none`. -/
def parseDigitsNat? (ds : List Nat) : Option Nat :=
  if ds.isEmpty then none
  else if ds.all isDigitB then some (digitsVal ds) else none

/-- The digits-and-range core of Rust's integer `FromStr`: parse an
unsigned digit run, apply the sign, and demand the value fits the width. -/
def rustIntCore (w : NumWidth) (ds : List Nat) (neg : Bool) : Option Int :=
  match parseDigitsNat? ds with
  | none => none
  | some n =>
    let v : Int := if neg then -(n : Int) else (n : Int)
    if w.lo ≤ v ∧ v ≤ w.hi then some v else none

/-- Rust's `FromStr` for fixed-width integers (`value_str.parse::<N>()`):
an optional sign (`-` only for signed widths) followed by a nonempty digit
run, with the value required to fit the width. -/
def rustIntFromStr (w : NumWidth) (tok : List Nat) : Option Int :=
  match tok with
  | [] => none
  | b :: rest =>
    if b = 43 then rustIntCore w rest false
    else if b = 45 then (if w.signed then rustIntCore w rest true else none)
    else rustIntCore w (b :: rest) false

/-- Canonical decimal digits (ASCII bytes) of `n`, as produced by
`to_string()` on Rust integers; the first argument is a recursion bound
(`n` itself always suffices). -/
def natDecGo : Nat → Nat → List Nat
  | _, 0 => []
  | 0, _ => []
  | fuel + 1, n => natDecGo fuel (n / 10) ++ [48 + n % 10]

/-- `n.to_string()` for an unsigned integer: canonical decimal, `0` ↦ `"0"`. -/
def natDec (n : Nat) : List Nat := if n = 0 then [48] else natDecGo n n

/-!
## Floats (serialize_f32/f64, deserialize_f32/f64)

The crate defers all float text conversion to the standard library:
`serialize_f32`/`serialize_f64` append `v.to_string()` (the `Display`
shortest round-trip decimal: `1.5`, `0.1`, `inf`, `-inf`, `NaN`; never
scientific notation) and `parse_number::<f32/f64>` defers to `FromStr`.
Neither conversion's code is in this repository, so both are modelled
from their documented behavior, at exact-decimal precision: a finite
float is identified with its canonical `Display` string (`Display`
round-trips through `FromStr` and is therefore injective), and `FromStr`
is modelled by the documented literal grammar followed by
canonicalization to that string.  Binary rounding (two decimal tokens
denoting the same IEEE value, huge exponents overflowing to infinity) is
standard-library behavior outside this repository and is not modelled; no
claim below depends on it.
-/

/-- The two float widths.  At the modelled exact-decimal precision f32
and f64 behave identically; the width is kept because the two serde entry
points are distinct. -/
inductive FloatWidth where
  | f32 | f64
deriving Repr, DecidableEq

/-- A float value at the wire level: a finite value carried as its
canonical `Display` string (digit bytes, optional `-` and `.`), or one of
the three non-finite values. -/
inductive FloatVal where
  | finite (tok : List Nat)
  | inf
  | negInf
  | nan
deriving Repr, DecidableEq

/-- The longest leading digit run and the remainder. -/
def splitDigits : List Nat → List Nat × List Nat
  | [] => ([], [])
  | b :: t =>
    if isDigitB b then
      let (d, r) := splitDigits t
      (b :: d, r)
    else ([], b :: t)

/-- An optional leading sign; `true` = negative. -/
def parseSign : List Nat → Bool × List Nat
  | 43 :: t => (false, t)
  | 45 :: t => (true, t)
  | s => (false, s)

/-- A float literal, split into sign, integral digits, fractional digits,
exponent sign and exponent digits. -/
structure FloatParts where
  neg : Bool
  ip : List Nat
  fp : List Nat
  eneg : Bool
  ed : List Nat
deriving Repr, DecidableEq

/-- The exponent suffix after `e`/`E`: optional sign, then at least one
digit, consuming the rest of the token. -/
def parseExp (s : List Nat) : Option (Bool × List Nat) :=
  let (en, s1) := parseSign s
  let (ed, s2) := splitDigits s1
  if ed ≠ [] ∧ s2 = [] then some (en, ed) else none

/-- The number production of Rust's float `FromStr` grammar:
`Sign? (Digit+ | Digit+ point Digit* | Digit* point Digit+) Exp?` with
`Exp` being `e` or `E`, an optional sign, then at least one digit. -/
def parseFloatLit (tok : List Nat) : Option FloatParts :=
  let (neg, s1) := parseSign tok
  let (ip, s2) := splitDigits s1
  match s2 with
  | [] => if ip = [] then none else some ⟨neg, ip, [], false, []⟩
  | 46 :: s3 =>
    let (fp, s4) := splitDigits s3
    if ip = [] ∧ fp = [] then none
    else
      match s4 with
      | [] => some ⟨neg, ip, fp, false, []⟩
      | b :: s5 =>
        if b = 101 ∨ b = 69 then
          match parseExp s5 with
          | some (en, ed) => some ⟨neg, ip, fp, en, ed⟩
          | none => none
        else none
  | b :: s3 =>
    if (b = 101 ∨ b = 69) ∧ ip ≠ [] then
      match parseExp s3 with
      | some (en, ed) => some ⟨neg, ip, [], en, ed⟩
      | none => none
    else none

/-- ASCII lowercasing, for the case-insensitive `inf`/`infinity`/`nan`
forms of the float grammar. -/
def lowerByte (b : Nat) : Nat := if 65 ≤ b ∧ b ≤ 90 then b + 32 else b

/-- The non-finite productions of the float `FromStr` grammar
(unreachable through `parse_number`, whose scanner stops at the letters,
but part of `FromStr`). -/
def parseInfNan (tok : List Nat) : Option FloatVal :=
  let (neg, s1) := parseSign tok
  let l := s1.map lowerByte
  if l = [105, 110, 102] ∨ l = [105, 110, 102, 105, 110, 105, 116, 121] then
    some (if neg then .negInf else .inf)
  else if l = [110, 97, 110] then some .nan
  else none

/-- Strip trailing decimal zeros from `n` while fractional digits remain
(first argument: fuel), returning the stripped value and how many
fractional digits remain. -/
def stripZeroGo : Nat → Nat → Nat → Nat × Nat
  | 0, n, k => (n, k)
  | fuel + 1, n, k =>
    if k ≠ 0 ∧ n % 10 = 0 ∧ n ≠ 0 then stripZeroGo fuel (n / 10) (k - 1)
    else (n, k)

/-- The canonical `Display` rendering of the exact decimal a parsed
literal denotes: no exponent, no trailing fractional zeros, no point when
the value is integral (`1`, not `1.0`), a single leading `-` on negative
values (kept on `-0`, as `Display` keeps it). -/
def renderParts (p : FloatParts) : List Nat :=
  let dval := digitsVal (p.ip ++ p.fp)
  let sgn : List Nat := if p.neg then [45] else []
  if dval = 0 then sgn ++ [48]
  else
    let e : Int := (if p.eneg then -(digitsVal p.ed : Int) else (digitsVal p.ed : Int))
      - p.fp.length
    if 0 ≤ e then sgn ++ natDec (dval * 10 ^ e.toNat)
    else
      let k := (-e).toNat
      let nk := stripZeroGo k dval k
      if nk.2 = 0 then sgn ++ natDec nk.1
      else
        let fd := natDec (nk.1 % 10 ^ nk.2)
        sgn ++ natDec (nk.1 / 10 ^ nk.2) ++ 46 :: (List.replicate (nk.2 - fd.length) 48 ++ fd)

/-- `f32::from_str` / `f64::from_str` (`value_str.parse::<N>()` at a
float `N`): the documented literal grammar, a parsed finite literal
canonicalized to its exact-decimal `Display` form.  Identical at both
widths at the modelled precision (grammar acceptance is genuinely
width-independent in Rust; only rounding differs). -/
def rustFloatFromStr (tok : List Nat) : Option FloatVal :=
  match parseInfNan tok with
  | some v => some v
  | none => (parseFloatLit tok).map (fun p => .finite (renderParts p))

/-- `v.to_string()` on an f32/f64: the canonical token of a finite value;
`inf`, `-inf`, `NaN` otherwise. -/
def floatBytes : FloatVal → List Nat
  | .finite tok => tok
  | .inf => [105, 110, 102]
  | .negInf => [45, 105, 110, 102]
  | .nan => [78, 97, 78]

/-- Representability of a float value: a finite payload is an actual
`Display` output — numeric-charset, and a fixed point of
parse-then-render (`Display` outputs are exactly the canonical tokens,
and `FromStr` maps a `Display` output back to the float that printed
it); the non-finite values are always representable. -/
def floatValOK : FloatVal → Bool
  | .finite tok =>
    decide (rustFloatFromStr tok = some (.finite tok)) && tok.all isNumericChar
  | _ => true

/-- `Deserializer::parse_number::<N>` (de.rs), generic over the target's
`FromStr` exactly as the source function is generic over `N`: consume and
check a numeric tag (`:`, `,`, `(`), scan the numeric-character run,
defer to the target's text-to-number parse (failure: `UnexpectedByte`
reporting the first token character, `'\0'` if the token is empty), then
demand CRLF. -/
def parse_number_with {α : Type} (fromStr : List Nat → Option α) : Dec α := do
  let first ← next_byte
  match prefixToKind? first with
  | none => Dec.fail .UnrecognizedStart
  | some kind =>
    if kind = .Integer ∨ kind = .Float ∨ kind = .BigNumber then do
      let tok ← scan_numeric
      match fromStr tok with
      | none => Dec.fail (.UnexpectedByte "A valid integer string" (tok.headD 0))
      | some v => do
        expect_crlf
        Pure.pure v
    else
      Dec.fail (.UnexpectedByte "An integer (:), float (,), or big number (() prefix" first)

/-- The integer instantiations `parse_number::<i8..u64>` behind
`deserialize_i8` .. `deserialize_u64` (de.rs). -/
def parse_number (w : NumWidth) : Dec Int := parse_number_with (rustIntFromStr w)

/-- The float instantiations `parse_number::<f32>` / `parse_number::<f64>`
behind `deserialize_f32` / `deserialize_f64` (de.rs). -/
def parse_float (fw : FloatWidth) : Dec FloatVal := parse_number_with rustFloatFromStr

/-!
## The generic data model

`Value` is the abstract value shape of the spec (§3): the values the serde
data model lets an application hand to `to_bytes`/receive from
`from_bytes`.  Strings and field/variant names carry their UTF-8 bytes.
-/

inductive Value where
  | vBool (b : Bool)
  | vInt (w : NumWidth) (n : Int)
  | vFloat (fw : FloatWidth) (f : FloatVal)
  | vChar (c : Char)
  | vStr (bs : List Nat)
  | vBytes (bs : List Nat)
  | vUnit
  | vNone
  | vSome (v : Value)
  | vSeq (vs : List Value)
  | vTuple (vs : List Value)
  | vMap (kvs : List (List Nat × Value))
  | vStruct (kvs : List (List Nat × Value))
  | vUnitVariant (name : List Nat)
  | vNewtypeVariant (name : List Nat) (v : Value)
  | vTupleVariant (name : List Nat) (vs : List Value)
  | vStructVariant (name : List Nat) (kvs : List (List Nat × Value))
deriving Repr

mutual
/-- The expected-shape declaration the caller (serde's derived
`Deserialize` impls) supplies to the decode engine: which `deserialize_*`
entry point is invoked, with field and variant names known up front. -/
inductive Shape where
  | sBool
  | sNum (w : NumWidth)
  | sFloat (fw : FloatWidth)
  | sChar
  | sStr
  | sBytes
  | sUnit
  | sOption (inner : Shape)
  | sSeq (elem : Shape)
  | sTuple (elems : List Shape)
  | sMap (velem : Shape)
  | sStruct (fields : List (List Nat × Shape))
  | sEnum (variants : List (List Nat × VariantKind))
deriving Repr

inductive VariantKind where
  | unitK
  | newtypeK (payload : Shape)
  | tupleK (elems : List Shape)
  | structK (fields : List (List Nat × Shape))
deriving Repr
end

/-- First-match association lookup on byte-string keys (field and variant
name resolution in the derived visitors). -/
def assocFind {α : Type} (k : List Nat) : List (List Nat × α) → Option α
  | [] => none
  | (k1, a) :: rest => if k1 = k then some a else assocFind k rest

/-!
## The decode engine's compound accessors

`LengthSeqVisitor` (de.rs) hands elements back while `current < length`.
What each *consumer* visitor does with that accessor is fixed by serde's
`Deserialize` impls (outside this repository); those loops are modelled
from the spec (§4.3 Bounded Accessor contract): `Vec`-style consumers drain
exactly `length` elements; tuple consumers demand their arity and fail with
a `DeserializeError` when the accessor runs out first; struct consumers
read exactly `length` keyed pairs, matching fields by name.
-/

/-- `Vec`/`HashSet`-style sequence consumer: drain exactly `len` elements. -/
def decodeCount (d : Dec Value) : Nat → Dec (List Value)
  | 0 => Pure.pure []
  | n + 1 => do
    let v ← d
    let vs ← decodeCount d n
    Pure.pure (v :: vs)

/-- Derived tuple consumer: one accessor poll per component; if the
declared count runs out first the derived impl fails (serde
`invalid_length`, surfaced through `Error::custom` as `DeserializeError`).
Elements beyond the arity are left unread, as in the derived impls. -/
def decodeTupleElems : List (Dec Value) → Nat → Dec (List Value)
  | [], _ => Pure.pure []
  | _ :: _, 0 => Dec.fail (.DeserializeError "invalid length")
  | d :: ds, n + 1 => do
    let v ← d
    let vs ← decodeTupleElems ds n
    Pure.pure (v :: vs)

/-- `HashMap<String, T>`-style map consumer: `len` (key, value) pairs in
input order; keys decode through `deserialize_string` → `parse_string`. -/
def decodeMapPairs (d : Dec Value) : Nat → Dec (List (List Nat × Value))
  | 0 => Pure.pure []
  | n + 1 => do
    let k ← parse_string
    let v ← d
    let rest ← decodeMapPairs d n
    Pure.pure ((k, v) :: rest)

/-- End of the derived struct visitor: emit the fields in declaration
order from the pairs seen so far; a hole is serde's `missing_field`. -/
def collectFields : List (List Nat × Dec Value) → List (List Nat × Value) →
    Except Fail (List (List Nat × Value))
  | [], _ => .ok []
  | (name, _) :: fs, seen =>
    match assocFind name seen with
    | none => .error (.err (.DeserializeError "missing field"))
    | some v =>
      match collectFields fs seen with
      | .ok tail => .ok ((name, v) :: tail)
      | .error e => .error e

/-- Modelled from the spec (§3, §4.3): the derived struct visitor, which is
serde-generated code outside this repository.  It reads the declared number
of keyed pairs, resolves each key against the known field names ("decode
consumes pairs positionally but matches fields by name, not position"),
rejects duplicate and unresolvable keys, and finally demands every field
present. -/
def decodeStructPairs (fds : List (List Nat × Dec Value)) :
    Nat → List (List Nat × Value) → Dec (List (List Nat × Value))
  | 0, seen => fun s => (collectFields fds seen, s)
  | n + 1, seen => do
    let k ← parse_string
    match assocFind k fds with
    | none => Dec.fail (.DeserializeError "unknown field")
    | some d =>
      if (assocFind k seen).isSome then Dec.fail (.DeserializeError "duplicate field")
      else do
        let v ← d
        decodeStructPairs fds n (seen ++ [(k, v)])

/-- The sequence-framing prologue of `deserialize_seq` (de.rs): peek the
tag, demand Array/Set/Push, consume it, read the declared count, CRLF. -/
def seqHeader : Dec Nat := do
  let first ← peek_byte
  match prefixToKind? first with
  | none => Dec.fail .UnrecognizedStart
  | some k =>
    if k = .Array ∨ k = .Set ∨ k = .Push then do
      expect_byte first
      let len ← expect_length
      expect_crlf
      Pure.pure len
    else Dec.fail (.UnexpectedByte "An array, set, or push prefix" first)

/-- The map-framing prologue of `deserialize_map` (de.rs): peek the tag,
demand Map/Attributes, consume it, read the declared pair count, CRLF. -/
def mapHeader : Dec Nat := do
  let first ← peek_byte
  match prefixToKind? first with
  | none => Dec.fail .UnrecognizedStart
  | some k =>
    if k = .Map ∨ k = .Attributes then do
      expect_byte first
      let len ← expect_length
      expect_crlf
      Pure.pure len
    else Dec.fail (.UnexpectedByte "A map or attributes prefix" first)

/-- One level of the shape-directed decode engine: each `Shape` selects the
corresponding `deserialize_*` entry point of de.rs; `rec` performs the
nested decodes of one level deeper. -/
def decodeStep (rec : Shape → Dec Value) : Shape → Dec Value
  | .sBool => do
    -- deserialize_bool (de.rs)
    expect_byte 35
    let b ← next_byte
    let v ← (match b with
      | 116 => Pure.pure true
      | 102 => Pure.pure false
      | b => Dec.fail (.UnexpectedByte "One of `t` or `f`" b) : Dec Bool)
    expect_crlf
    Pure.pure (.vBool v)
  | .sNum w =>
    -- deserialize_i8 .. deserialize_u64 (de.rs); serde's default
    -- deserialize_i128/u128 reject up front (tested in de.rs tests)
    match w with
    | .i128 => Dec.fail (.DeserializeError "i128 is not supported")
    | .u128 => Dec.fail (.DeserializeError "u128 is not supported")
    | w => do
      let n ← parse_number w
      Pure.pure (.vInt w n)
  | .sFloat fw => do
    -- deserialize_f32/f64 (de.rs): parse_number::<f32/f64> into visit_f32/f64
    let f ← parse_float fw
    Pure.pure (.vFloat fw f)
  | .sChar => do
    -- deserialize_char (de.rs): byte length of the decoded string must be 1
    let bs ← parse_string
    if 1 < bs.length then Dec.fail (.DeserializeError "Expected a single character string")
    else
      match bs with
      | [] => Dec.fail (.DeserializeError "String is empty, expected a single character")
      | b :: _ => Pure.pure (.vChar (Char.ofNat b))
  | .sStr => do
    -- deserialize_string (de.rs)
    let bs ← parse_string
    Pure.pure (.vStr bs)
  | .sBytes => fun s =>
    -- deserialize_bytes (de.rs): visitor.visit_bytes(self.input) — the whole
    -- remaining input, and the cursor is not advanced
    (.ok (.vBytes s), s)
  | .sUnit => do
    -- deserialize_unit (de.rs)
    expect_byte 95
    expect_crlf
    Pure.pure .vUnit
  | .sOption inner => fun s =>
    -- deserialize_option (de.rs): lookahead for the Null prefix
    if s.head? = some 95 then
      (do expect_byte 95; expect_crlf; Pure.pure Value.vNone : Dec Value) s
    else
      (do let v ← rec inner; Pure.pure (Value.vSome v) : Dec Value) s
  | .sSeq elem => do
    -- deserialize_seq (de.rs) + Vec-style consumer
    let len ← seqHeader
    let vs ← decodeCount (rec elem) len
    Pure.pure (.vSeq vs)
  | .sTuple elems => do
    -- deserialize_tuple → deserialize_seq (de.rs) + derived tuple consumer
    let len ← seqHeader
    let vs ← decodeTupleElems (elems.map rec) len
    Pure.pure (.vTuple vs)
  | .sMap velem => do
    -- deserialize_map (de.rs) + HashMap-style consumer
    let len ← mapHeader
    let kvs ← decodeMapPairs (rec velem) len
    Pure.pure (.vMap kvs)
  | .sStruct fields => do
    -- deserialize_struct → deserialize_map (de.rs) + derived struct visitor
    let len ← mapHeader
    let kvs ← decodeStructPairs (fields.map (fun f => (f.1, rec f.2))) len []
    Pure.pure (.vStruct kvs)
  | .sEnum variants => do
    -- deserialize_enum (de.rs): string-family lookahead → unit variant;
    -- Map/Attributes lookahead → EnumDeserializer::variant_seed
    let first ← peek_byte
    match prefixToKind? first with
    | none => Dec.fail .UnrecognizedStart
    | some k =>
      if k.isStringFamily then do
        let name ← parse_string
        match assocFind name variants with
        | some .unitK => Pure.pure (.vUnitVariant name)
        | some _ => Dec.fail (.DeserializeError "invalid type: unit variant")
        | none => Dec.fail (.DeserializeError "unknown variant")
      else if k = .Map ∨ k = .Attributes then do
        -- EnumDeserializer::variant_seed (de.rs)
        expect_byte first
        let len ← expect_length
        if len ≠ 1 then
          Dec.fail (.DeserializeError "Expected a single key-value pair for enum variant")
        else do
          expect_crlf
          let name ← parse_string
          match assocFind name variants with
          | none => Dec.fail (.DeserializeError "unknown variant")
          | some .unitK =>
            -- VariantAccess::unit_variant (de.rs)
            Dec.fail (.DeserializeError "Expected a unit variant, which must be a string")
          | some (.newtypeK ps) => do
            -- newtype_variant_seed (de.rs)
            let v ← rec ps
            Pure.pure (.vNewtypeVariant name v)
          | some (.tupleK pss) => do
            -- tuple_variant → deserialize_seq (de.rs)
            let len2 ← seqHeader
            let vs ← decodeTupleElems (pss.map rec) len2
            Pure.pure (.vTupleVariant name vs)
          | some (.structK pfs) => do
            -- struct_variant → deserialize_map (de.rs)
            let len2 ← mapHeader
            let kvs ← decodeStructPairs (pfs.map (fun f => (f.1, rec f.2))) len2 []
            Pure.pure (.vStructVariant name kvs)
      else Dec.fail (.UnexpectedByte "A string or map prefix" first)

/-- The decode engine, with an explicit recursion budget (the Rust original
recurses on the native stack without a depth guard, cf. spec §5; `fuelOK`
below characterizes budgets that cover a given shape, so the budget never
influences results on covered shapes). -/
def decodeShape : Nat → Shape → Dec Value
  | 0, _ => Dec.fail (.DeserializeError "recursion limit exceeded")
  | fuel + 1, s => decodeStep (decodeShape fuel) s

/-- `fuelOK fuel s`: the recursion budget `fuel` covers every nested decode
the shape `s` can demand. -/
def fuelOKStep (rec : Shape → Bool) : Shape → Bool
  | .sOption inner => rec inner
  | .sSeq elem => rec elem
  | .sTuple elems => elems.all rec
  | .sMap velem => rec velem
  | .sStruct fields => fields.all (fun f => rec f.2)
  | .sEnum variants => variants.all (fun v =>
      match v.2 with
      | .unitK => true
      | .newtypeK ps => rec ps
      | .tupleK pss => pss.all rec
      | .structK pfs => pfs.all (fun f => rec f.2))
  | _ => true

def fuelOK : Nat → Shape → Bool
  | 0, _ => false
  | fuel + 1, s => fuelOKStep (fuelOK fuel) s

/-!
## The encode engine (src/ser.rs)

Each serialize entry point appends a complete, self-terminated wire unit;
encoding a whole value concatenates them in traversal order.
-/

/-- `v.to_string()` for a signed integer: optional leading `-`. -/
def intDecBytes (n : Int) : List Nat :=
  if n < 0 then 45 :: natDec n.natAbs else natDec n.toNat

/-- `Serializer::serialize_bytes` (ser.rs): `$<len>\r\n<data>\r\n`; also the
wire form of `serialize_str` and `serialize_char`, which funnel into it. -/
def encBulk (bs : List Nat) : List Nat :=
  36 :: natDec bs.length ++ CRLF ++ bs ++ CRLF

/-- The UTF-8 encoding of a Unicode scalar value, as produced by Rust's
`char::to_string` inside `serialize_char`. -/
def charUtf8 (c : Char) : List Nat :=
  let n := c.toNat
  if n < 128 then [n]
  else if n < 2048 then [192 + n / 64, 128 + n % 64]
  else if n < 65536 then [224 + n / 4096, 128 + (n / 64) % 64, 128 + n % 64]
  else [240 + n / 262144, 128 + (n / 4096) % 64, 128 + (n / 64) % 64, 128 + n % 64]

/-- `Serializer::serialize_map` (ser.rs): the Map header `%<len>\r\n`, or a
`SerializeError` when the length is not known up front. -/
def serialize_map (len : Option Nat) : Except Err (List Nat) :=
  match len with
  | none => .error (.SerializeError "Cannot serialize a map with unknown length")
  | some l => .ok (37 :: natDec l ++ CRLF)

/-- `Serializer::serialize_seq` (ser.rs): the Array header `*<len>\r\n`,
with `*-1\r\n` emitted for a sequence of unknown length. -/
def serialize_seq_header (len : Option Nat) : List Nat :=
  match len with
  | some l => 42 :: natDec l ++ CRLF
  | none => 42 :: 45 :: 49 :: CRLF

mutual
/-- Whole-value encoding: the bytes `value.serialize(&mut serializer)`
appends, per the `Serializer` impl in ser.rs.  The 128-bit widths are
rejected by serde's default `serialize_i128`/`serialize_u128` (not
overridden in ser.rs) before reaching the `Serializer`. -/
def encodeValue : Value → Except Err (List Nat)
  | .vBool b => .ok (35 :: (if b then 116 else 102) :: CRLF)
  | .vInt w n =>
    match w with
    | .i128 => .error (.SerializeError "i128 is not supported")
    | .u128 => .error (.SerializeError "u128 is not supported")
    | .u64 => .ok (40 :: natDec n.toNat ++ CRLF)  -- serialize_u64: BigNumber
    | _ => .ok (58 :: intDecBytes n ++ CRLF)      -- serialize_i64 and the widths funnelled into it
  | .vFloat _ f => .ok (44 :: floatBytes f ++ CRLF) -- serialize_f32/f64: Float tag + Display + CRLF
  | .vChar c => .ok (encBulk (charUtf8 c))        -- serialize_char → serialize_str → serialize_bytes
  | .vStr bs => .ok (encBulk bs)                  -- serialize_str → serialize_bytes
  | .vBytes bs => .ok (encBulk bs)                -- serialize_bytes
  | .vUnit => .ok (95 :: CRLF)                    -- serialize_unit → serialize_none
  | .vNone => .ok (95 :: CRLF)                    -- serialize_none
  | .vSome v => encodeValue v                     -- serialize_some: the wrapped value directly
  | .vSeq vs => do
    let body ← encodeList vs
    .ok (serialize_seq_header (some vs.length) ++ body)
  | .vTuple vs => do                              -- serialize_tuple → serialize_seq
    let body ← encodeList vs
    .ok (serialize_seq_header (some vs.length) ++ body)
  | .vMap kvs => do
    let hdr ← serialize_map (some kvs.length)
    let body ← encodePairs kvs
    .ok (hdr ++ body)
  | .vStruct kvs => do                            -- serialize_struct → serialize_map
    let hdr ← serialize_map (some kvs.length)
    let body ← encodePairs kvs
    .ok (hdr ++ body)
  | .vUnitVariant name => .ok (encBulk name)      -- serialize_unit_variant → serialize_str
  | .vNewtypeVariant name v => do                 -- serialize_newtype_variant: %1 + name + value
    let pv ← encodeValue v
    .ok (37 :: 49 :: CRLF ++ encBulk name ++ pv)
  | .vTupleVariant name vs => do                  -- serialize_tuple_variant: %1 + name + seq
    let body ← encodeList vs
    .ok (37 :: 49 :: CRLF ++ encBulk name ++ serialize_seq_header (some vs.length) ++ body)
  | .vStructVariant name kvs => do                -- serialize_struct_variant: %1 + name + map
    let hdr ← serialize_map (some kvs.length)
    let body ← encodePairs kvs
    .ok (37 :: 49 :: CRLF ++ encBulk name ++ hdr ++ body)

def encodeList : List Value → Except Err (List Nat)
  | [] => .ok []
  | v :: rest => do
    let a ← encodeValue v
    let b ← encodeList rest
    .ok (a ++ b)

def encodePairs : List (List Nat × Value) → Except Err (List Nat)
  | [] => .ok []
  | (k, v) :: rest => do
    let a ← encodeValue v
    let b ← encodePairs rest
    .ok (encBulk k ++ a ++ b)    -- SerializeMap: key via serialize_str, then the value
end

/-- `to_bytes` (ser.rs): run the serializer, return the buffer. -/
def to_bytes (v : Value) : Except Err (List Nat) := encodeValue v

/-- Rust's `core::str` UTF-8 validity check, byte-level (used by
`String::from_utf8`): continuation byte. -/
def utf8Cont (b : Nat) : Bool := 128 ≤ b && b ≤ 191

/-- Rust's UTF-8 validation (`String::from_utf8`), including the overlong,
surrogate, and > U+10FFFF exclusions. -/
def validUtf8 : List Nat → Bool
  | [] => true
  | b :: rest =>
    if b ≤ 127 then validUtf8 rest
    else if 194 ≤ b && b ≤ 223 then
      match rest with
      | c :: r => utf8Cont c && validUtf8 r
      | [] => false
    else if b = 224 then
      match rest with
      | c :: d :: r => (160 ≤ c && c ≤ 191) && utf8Cont d && validUtf8 r
      | _ => false
    else if (225 ≤ b && b ≤ 236) || b = 238 || b = 239 then
      match rest with
      | c :: d :: r => utf8Cont c && utf8Cont d && validUtf8 r
      | _ => false
    else if b = 237 then
      match rest with
      | c :: d :: r => (128 ≤ c && c ≤ 159) && utf8Cont d && validUtf8 r
      | _ => false
    else if b = 240 then
      match rest with
      | c :: d :: e :: r => (144 ≤ c && c ≤ 191) && utf8Cont d && utf8Cont e && validUtf8 r
      | _ => false
    else if 241 ≤ b && b ≤ 243 then
      match rest with
      | c :: d :: e :: r => utf8Cont c && utf8Cont d && utf8Cont e && validUtf8 r
      | _ => false
    else if b = 244 then
      match rest with
      | c :: d :: e :: r => (128 ≤ c && c ≤ 143) && utf8Cont d && utf8Cont e && validUtf8 r
      | _ => false
    else false

/-- `to_string` (ser.rs): run the serializer, then `String::from_utf8` the
buffer — failing with `InvalidUtf8` when the output is not valid UTF-8. -/
def to_string (v : Value) : Except Err (List Nat) :=
  match encodeValue v with
  | .ok bs => if validUtf8 bs then .ok bs else .error .InvalidUtf8
  | .error e => .error e

/-!
## Well-formedness and claim-side predicates
-/

/-- Does the encoding of `v` start with the Null prefix `_`?  (Exactly the
values the `deserialize_option` lookahead captures as `None`.) -/
def startsNull : Value → Bool
  | .vUnit => true
  | .vNone => true
  | .vSome v => startsNull v
  | _ => false

/-- Shapes whose decode, run on *empty* input, reports `UnexpectedEnd`
(every shape except the 128-bit widths, which serde rejects up front
without looking at the input, and `sBytes`, which never reads). -/
def headSupported : Shape → Bool
  | .sNum .i128 => false
  | .sNum .u128 => false
  | .sBytes => false
  | .sOption inner => headSupported inner
  | _ => true

/-- `HasShape v s`: the value `v` is a representable Rust value of shape
`s` — integer widths hold their values, lengths fit `usize`, map/struct
keys are distinct (Rust map types cannot hold duplicates), and struct
values list their fields in declaration order, as the derived `Serialize`
impls emit them. -/
inductive HasShape : Value → Shape → Prop where
  | hBool (b : Bool) : HasShape (.vBool b) .sBool
  | hInt (w : NumWidth) (n : Int) : w ≠ .i128 → w ≠ .u128 →
      w.lo ≤ n → n ≤ w.hi → HasShape (.vInt w n) (.sNum w)
  | hFloat (fw : FloatWidth) (f : FloatVal) : floatValOK f = true →
      HasShape (.vFloat fw f) (.sFloat fw)
  | hChar (c : Char) : HasShape (.vChar c) .sChar
  | hStr (bs : List Nat) : bs.length ≤ USIZE_MAX → HasShape (.vStr bs) .sStr
  | hBytes (bs : List Nat) : bs.length ≤ USIZE_MAX → HasShape (.vBytes bs) .sBytes
  | hUnit : HasShape .vUnit .sUnit
  | hNone (s : Shape) : HasShape .vNone (.sOption s)
  | hSome {v : Value} {s : Shape} : HasShape v s → HasShape (.vSome v) (.sOption s)
  | hSeq {vs : List Value} {s : Shape} : (∀ v ∈ vs, HasShape v s) →
      vs.length ≤ USIZE_MAX → HasShape (.vSeq vs) (.sSeq s)
  | hTuple {vs : List Value} {ss : List Shape} : vs.length = ss.length →
      (∀ p ∈ vs.zip ss, HasShape p.1 p.2) →
      vs.length ≤ USIZE_MAX → HasShape (.vTuple vs) (.sTuple ss)
  | hMap {kvs : List (List Nat × Value)} {s : Shape} :
      (∀ p ∈ kvs, p.1.length ≤ USIZE_MAX) → (∀ p ∈ kvs, HasShape p.2 s) →
      kvs.length ≤ USIZE_MAX → (kvs.map Prod.fst).Nodup →
      HasShape (.vMap kvs) (.sMap s)
  | hStruct {kvs : List (List Nat × Value)} {fields : List (List Nat × Shape)} :
      kvs.length = fields.length →
      (∀ p ∈ kvs.zip fields, p.1.1 = p.2.1) →
      (∀ p ∈ kvs, p.1.length ≤ USIZE_MAX) →
      (∀ p ∈ kvs.zip fields, HasShape p.1.2 p.2.2) →
      kvs.length ≤ USIZE_MAX → (kvs.map Prod.fst).Nodup →
      HasShape (.vStruct kvs) (.sStruct fields)
  | hUnitVariant {name : List Nat} {variants : List (List Nat × VariantKind)} :
      assocFind name variants = some .unitK → name.length ≤ USIZE_MAX →
      HasShape (.vUnitVariant name) (.sEnum variants)
  | hNewtypeVariant {name : List Nat} {variants : List (List Nat × VariantKind)}
      {ps : Shape} {v : Value} :
      assocFind name variants = some (.newtypeK ps) → name.length ≤ USIZE_MAX →
      HasShape v ps → HasShape (.vNewtypeVariant name v) (.sEnum variants)
  | hTupleVariant {name : List Nat} {variants : List (List Nat × VariantKind)}
      {pss : List Shape} {vs : List Value} :
      assocFind name variants = some (.tupleK pss) → name.length ≤ USIZE_MAX →
      vs.length = pss.length → (∀ p ∈ vs.zip pss, HasShape p.1 p.2) →
      vs.length ≤ USIZE_MAX → HasShape (.vTupleVariant name vs) (.sEnum variants)
  | hStructVariant {name : List Nat} {variants : List (List Nat × VariantKind)}
      {pfs : List (List Nat × Shape)} {kvs : List (List Nat × Value)} :
      assocFind name variants = some (.structK pfs) → name.length ≤ USIZE_MAX →
      kvs.length = pfs.length →
      (∀ p ∈ kvs.zip pfs, p.1.1 = p.2.1) →
      (∀ p ∈ kvs, p.1.length ≤ USIZE_MAX) →
      (∀ p ∈ kvs.zip pfs, HasShape p.1.2 p.2.2) →
      kvs.length ≤ USIZE_MAX → (kvs.map Prod.fst).Nodup →
      HasShape (.vStructVariant name kvs) (.sEnum variants)

/-- `Lossless v`: the claim's "shape has no lossy case" side condition, as
amended — in addition to the claim's own exclusions (u64/usize values, the
`Some(())`/`None` collapse, null bulk strings, which decode-side only), it
excludes chars whose UTF-8 encoding is longer than one byte and raw-bytes
values, both of which the code cannot decode back. -/
inductive Lossless : Value → Prop where
  | lBool (b : Bool) : Lossless (.vBool b)
  | lInt (w : NumWidth) (n : Int) : w ≠ .u64 → Lossless (.vInt w n)
  | lFloat (fw : FloatWidth) (tok : List Nat) : Lossless (.vFloat fw (.finite tok))
  | lChar (c : Char) : c.toNat < 128 → Lossless (.vChar c)
  | lStr (bs : List Nat) : Lossless (.vStr bs)
  | lUnit : Lossless .vUnit
  | lNone : Lossless .vNone
  | lSome {v : Value} : startsNull v = false → Lossless v → Lossless (.vSome v)
  | lSeq {vs : List Value} : (∀ v ∈ vs, Lossless v) → Lossless (.vSeq vs)
  | lTuple {vs : List Value} : (∀ v ∈ vs, Lossless v) → Lossless (.vTuple vs)
  | lMap {kvs : List (List Nat × Value)} : (∀ p ∈ kvs, Lossless p.2) → Lossless (.vMap kvs)
  | lStruct {kvs : List (List Nat × Value)} : (∀ p ∈ kvs, Lossless p.2) → Lossless (.vStruct kvs)
  | lUnitVariant (name : List Nat) : Lossless (.vUnitVariant name)
  | lNewtypeVariant {name : List Nat} {v : Value} : Lossless v →
      Lossless (.vNewtypeVariant name v)
  | lTupleVariant {name : List Nat} {vs : List Value} : (∀ v ∈ vs, Lossless v) →
      Lossless (.vTupleVariant name vs)
  | lStructVariant {name : List Nat} {kvs : List (List Nat × Value)} :
      (∀ p ∈ kvs, Lossless p.2) → Lossless (.vStructVariant name kvs)

/-- Values containing no 128-bit integer width anywhere (serde cannot
serialize those; everything else the serializer accepts). -/
inductive NoI128 : Value → Prop where
  | nBool (b : Bool) : NoI128 (.vBool b)
  | nInt (w : NumWidth) (n : Int) : w ≠ .i128 → w ≠ .u128 → NoI128 (.vInt w n)
  | nFloat (fw : FloatWidth) (f : FloatVal) : NoI128 (.vFloat fw f)
  | nChar (c : Char) : NoI128 (.vChar c)
  | nStr (bs : List Nat) : NoI128 (.vStr bs)
  | nBytes (bs : List Nat) : NoI128 (.vBytes bs)
  | nUnit : NoI128 .vUnit
  | nNone : NoI128 .vNone
  | nSome {v : Value} : NoI128 v → NoI128 (.vSome v)
  | nSeq {vs : List Value} : (∀ v ∈ vs, NoI128 v) → NoI128 (.vSeq vs)
  | nTuple {vs : List Value} : (∀ v ∈ vs, NoI128 v) → NoI128 (.vTuple vs)
  | nMap {kvs : List (List Nat × Value)} : (∀ p ∈ kvs, NoI128 p.2) → NoI128 (.vMap kvs)
  | nStruct {kvs : List (List Nat × Value)} : (∀ p ∈ kvs, NoI128 p.2) → NoI128 (.vStruct kvs)
  | nUnitVariant (name : List Nat) : NoI128 (.vUnitVariant name)
  | nNewtypeVariant {name : List Nat} {v : Value} : NoI128 v → NoI128 (.vNewtypeVariant name v)
  | nTupleVariant {name : List Nat} {vs : List Value} : (∀ v ∈ vs, NoI128 v) →
      NoI128 (.vTupleVariant name vs)
  | nStructVariant {name : List Nat} {kvs : List (List Nat × Value)} :
      (∀ p ∈ kvs, NoI128 p.2) → NoI128 (.vStructVariant name kvs)

/-- The claim-C10 cursor invariant, as a predicate on decode operations:
whatever the outcome, the remaining input afterwards is a contiguous suffix
of the input before — the cursor only ever advances. -/
def Advances {α : Type} (m : Dec α) : Prop :=
  ∀ s, List.IsSuffix (m s).2 s

/-!
## Basic lemmas: the decode monad and decimal rendering
-/

theorem Dec.bind_def {α β : Type} (m : Dec α) (f : α → Dec β) :
    m >>= f = Dec.bind m f := rfl

theorem Dec.pure_def {α : Type} (a : α) : (Pure.pure a : Dec α) = Dec.pure a := rfl

theorem Dec.bind_apply_ok {α β : Type} {m : Dec α} {f : α → Dec β}
    {s s1 : List Nat} {a : α} (h : m s = (.ok a, s1)) :
    Dec.bind m f s = f a s1 := by
  simp [Dec.bind, h]

theorem Dec.bind_apply_error {α β : Type} {m : Dec α} {f : α → Dec β}
    {s s1 : List Nat} {e : Fail} (h : m s = (.error e, s1)) :
    Dec.bind m f s = (.error e, s1) := by
  simp [Dec.bind, h]

theorem natDecGo_eq_digits :
    ∀ fuel n, n ≤ fuel → natDecGo fuel n = ((Nat.digits 10 n).map (· + 48)).reverse := by
  intro fuel
  induction fuel with
  | zero =>
    intro n hn
    have hz : n = 0 := Nat.le_zero.mp hn
    subst hz
    simp [natDecGo]
  | succ f ih =>
    intro n hn
    match n with
    | 0 => simp [natDecGo]
    | m + 1 =>
      have hdiv : (m + 1) / 10 ≤ f := by
        have := Nat.div_lt_self (Nat.succ_pos m) (by norm_num : 1 < 10)
        omega
      rw [natDecGo, ih ((m + 1) / 10) hdiv,
        Nat.digits_def' (by norm_num : (1 : ℕ) < 10) (by omega : 0 < m + 1)]
      · simp [Nat.add_comm]
      · omega

theorem natDec_eq_digits {n : Nat} (h : n ≠ 0) :
    natDec n = ((Nat.digits 10 n).map (· + 48)).reverse := by
  unfold natDec
  rw [if_neg h]
  exact natDecGo_eq_digits n n le_rfl

theorem natDec_all_digits {n : Nat} : ∀ b ∈ natDec n, 48 ≤ b ∧ b ≤ 57 := by
  intro b hb
  by_cases h : n = 0
  · subst h
    simp [natDec] at hb
    omega
  · rw [natDec_eq_digits h] at hb
    simp only [List.mem_reverse, List.mem_map] at hb
    obtain ⟨d, hd, rfl⟩ := hb
    have := Nat.digits_lt_base (by norm_num) hd
    omega

theorem natDec_ne_nil {n : Nat} : natDec n ≠ [] := by
  by_cases h : n = 0
  · subst h; simp [natDec]
  · rw [natDec_eq_digits h]
    simp [Nat.digits_ne_nil_iff_ne_zero.mpr h]

theorem foldl_digits_rev (L : List Nat) : ∀ a : Nat,
    List.foldl (fun a b => a * 10 + (b - 48)) a ((L.map (· + 48)).reverse) =
      a * 10 ^ L.length + Nat.ofDigits 10 L := by
  induction L with
  | nil => intro a; simp
  | cons d t ih =>
    intro a
    simp only [List.map_cons, List.reverse_cons, List.foldl_append, List.foldl_cons,
      List.foldl_nil, ih a, Nat.ofDigits_cons, List.length_cons]
    have h1 : d + 48 - 48 = d := by omega
    rw [h1, pow_succ]
    ring

theorem digitsVal_natDec (n : Nat) : digitsVal (natDec n) = n := by
  by_cases h : n = 0
  · subst h
    simp [natDec, digitsVal]
  · rw [natDec_eq_digits h]
    unfold digitsVal
    rw [foldl_digits_rev]
    simp [Nat.ofDigits_digits]

theorem position_append {p : Nat → Bool} :
    ∀ (xs : List Nat) (y : Nat) (ys : List Nat),
      (∀ b ∈ xs, p b = false) → p y = true →
      position p (xs ++ y :: ys) = some xs.length := by
  intro xs
  induction xs with
  | nil =>
    intro y ys _ hy
    simp [position, hy]
  | cons x t ih =>
    intro y ys hall hy
    have hx : p x = false := hall x (by simp)
    simp [position, hx, ih y ys (fun b hb => hall b (by simp [hb])) hy]

theorem expect_length_natDec {n : Nat} (hn : n ≤ USIZE_MAX) (rest : List Nat) :
    expect_length (natDec n ++ 13 :: rest) = (.ok n, 13 :: rest) := by
  unfold expect_length
  rw [position_append (natDec n) 13 rest
    (fun b hb => by
      have := natDec_all_digits b hb
      simp [isDigitB]
      omega)
    (by decide)]
  simp only [List.take_left, List.drop_left]
  rw [if_neg (by simp [List.isEmpty_iff]; exact natDec_ne_nil)]
  rw [digitsVal_natDec]
  rw [if_pos hn]

theorem scan_numeric_token {tok : List Nat}
    (h : ∀ b ∈ tok, isNumericChar b = true) (rest : List Nat) :
    scan_numeric (tok ++ 13 :: rest) = (.ok tok, 13 :: rest) := by
  unfold scan_numeric
  rw [position_append tok 13 rest (fun b hb => by simp [h b hb]) (by decide)]
  simp only [List.take_left, List.drop_left]

/-!
## Numeric tokens: rendering then re-parsing
-/

theorem natDec_head_digit {n : Nat} :
    ∃ b t, natDec n = b :: t ∧ 48 ≤ b ∧ b ≤ 57 := by
  match h : natDec n with
  | [] => exact absurd h natDec_ne_nil
  | b :: t =>
    have hd := natDec_all_digits (n := n) b (by rw [h]; simp)
    exact ⟨b, t, rfl, hd.1, hd.2⟩

theorem parseDigitsNat_natDec (n : Nat) : parseDigitsNat? (natDec n) = some n := by
  unfold parseDigitsNat?
  rw [if_neg (by simp [List.isEmpty_iff]; exact natDec_ne_nil)]
  rw [if_pos]
  · rw [digitsVal_natDec]
  · simp only [List.all_eq_true]
    intro b hb
    have := natDec_all_digits b hb
    simp [isDigitB]
    omega

theorem NumWidth.lo_of_not_signed {w : NumWidth} (h : w.signed = false) : w.lo = 0 := by
  cases w <;> simp_all [NumWidth.signed, NumWidth.lo]

theorem rustIntCore_natDec_true {w : NumWidth} {m : Nat}
    (h : w.lo ≤ -(m : Int) ∧ -(m : Int) ≤ w.hi) :
    rustIntCore w (natDec m) true = some (-(m : Int)) := by
  unfold rustIntCore
  rw [parseDigitsNat_natDec]
  simp [h.1, h.2]

theorem rustIntCore_natDec_false {w : NumWidth} {m : Nat}
    (h : w.lo ≤ (m : Int) ∧ (m : Int) ≤ w.hi) :
    rustIntCore w (natDec m) false = some (m : Int) := by
  unfold rustIntCore
  rw [parseDigitsNat_natDec]
  simp [h.1, h.2]

theorem rustIntFromStr_intDec {w : NumWidth} {n : Int}
    (h1 : w.lo ≤ n) (h2 : n ≤ w.hi) :
    rustIntFromStr w (intDecBytes n) = some n := by
  by_cases hneg : n < 0
  · have hsig : w.signed = true := by
      cases hs : w.signed
      · have := NumWidth.lo_of_not_signed hs
        omega
      · rfl
    unfold intDecBytes
    rw [if_pos hneg]
    simp only [rustIntFromStr]
    rw [if_neg (by omega : ¬(45 = 43)), if_pos trivial, if_pos hsig]
    rw [rustIntCore_natDec_true ⟨by omega, by omega⟩]
    congr 1
    omega
  · unfold intDecBytes
    rw [if_neg hneg]
    obtain ⟨b, t, hbt, hb1, hb2⟩ := natDec_head_digit (n := n.toNat)
    rw [hbt]
    simp only [rustIntFromStr]
    rw [if_neg (by omega), if_neg (by omega), ← hbt]
    rw [rustIntCore_natDec_false ⟨by omega, by omega⟩]
    congr 1
    omega

theorem parse_number_with_token {α : Type} {fromStr : List Nat → Option α}
    {tg : Nat} {k : RespDataKind} {tok : List Nat}
    (hk : prefixToKind? tg = some k) (hnum : k = .Integer ∨ k = .Float ∨ k = .BigNumber)
    (htok : ∀ b ∈ tok, isNumericChar b = true) (rest : List Nat) :
    parse_number_with fromStr (tg :: (tok ++ 13 :: 10 :: rest)) =
      (match fromStr tok with
       | some v => (.ok v, rest)
       | none => (.error (.err (.UnexpectedByte "A valid integer string" (tok.headD 0))),
           13 :: 10 :: rest)) := by
  unfold parse_number_with
  rw [Dec.bind_def,
    Dec.bind_apply_ok
      (show next_byte (tg :: (tok ++ 13 :: 10 :: rest)) =
        (.ok tg, tok ++ 13 :: 10 :: rest) from rfl)]
  rw [hk]
  simp only []
  rw [if_pos hnum]
  rw [Dec.bind_def, Dec.bind_apply_ok (scan_numeric_token htok (10 :: rest))]
  cases hr : fromStr tok <;> simp only []
  · rfl
  · rfl

theorem parse_number_token {w : NumWidth} {tg : Nat} {k : RespDataKind} {tok : List Nat}
    (hk : prefixToKind? tg = some k) (hnum : k = .Integer ∨ k = .Float ∨ k = .BigNumber)
    (htok : ∀ b ∈ tok, isNumericChar b = true) (rest : List Nat) :
    parse_number w (tg :: (tok ++ 13 :: 10 :: rest)) =
      (match rustIntFromStr w tok with
       | some v => (.ok v, rest)
       | none => (.error (.err (.UnexpectedByte "A valid integer string" (tok.headD 0))),
           13 :: 10 :: rest)) := by
  rw [show parse_number w = parse_number_with (rustIntFromStr w) from rfl]
  rw [parse_number_with_token hk hnum htok rest]
  cases rustIntFromStr w tok <;> rfl

theorem parse_float_token {fw : FloatWidth} {tg : Nat} {k : RespDataKind} {tok : List Nat}
    (hk : prefixToKind? tg = some k) (hnum : k = .Integer ∨ k = .Float ∨ k = .BigNumber)
    (htok : ∀ b ∈ tok, isNumericChar b = true) (rest : List Nat) :
    parse_float fw (tg :: (tok ++ 13 :: 10 :: rest)) =
      (match rustFloatFromStr tok with
       | some v => (.ok v, rest)
       | none => (.error (.err (.UnexpectedByte "A valid integer string" (tok.headD 0))),
           13 :: 10 :: rest)) := by
  rw [show parse_float fw = parse_number_with rustFloatFromStr from rfl]
  rw [parse_number_with_token hk hnum htok rest]
  cases rustFloatFromStr tok <;> rfl

/-!
## Bulk-string framing: rendering then re-parsing
-/

theorem encBulk_append (bs rest : List Nat) :
    encBulk bs ++ rest = 36 :: (natDec bs.length ++ 13 :: 10 :: (bs ++ 13 :: 10 :: rest)) := by
  simp [encBulk, CRLF]

theorem natDec_not_null_lead (n : Nat) (x : List Nat) :
    [45, 49, 13, 10].isPrefixOf (natDec n ++ x) = false := by
  obtain ⟨b, t, hbt, hb1, hb2⟩ := natDec_head_digit (n := n)
  rw [hbt, List.cons_append]
  simp [List.isPrefixOf]
  omega

theorem bulk_take_exact (bs x : List Nat) : bulk_take bs.length (bs ++ x) = (.ok bs, x) := by
  unfold bulk_take
  rw [if_pos (by simp)]
  simp only [List.take_left, List.drop_left]

theorem parse_bulk_string_encoded {bs : List Nat} (hlen : bs.length ≤ USIZE_MAX)
    (rest : List Nat) :
    parse_bulk_string (natDec bs.length ++ 13 :: 10 :: (bs ++ 13 :: 10 :: rest)) =
      (.ok bs, rest) := by
  unfold parse_bulk_string
  rw [if_neg (by simp [natDec_not_null_lead])]
  rw [Dec.bind_def, Dec.bind_apply_ok (expect_length_natDec hlen _)]
  rw [Dec.bind_def,
    Dec.bind_apply_ok
      (show expect_crlf (13 :: 10 :: (bs ++ 13 :: 10 :: rest)) =
        (.ok (), bs ++ 13 :: 10 :: rest) from rfl)]
  rw [Dec.bind_def, Dec.bind_apply_ok (bulk_take_exact bs (13 :: 10 :: rest))]
  rw [Dec.bind_def,
    Dec.bind_apply_ok (show expect_crlf (13 :: 10 :: rest) = (.ok (), rest) from rfl)]
  rfl

theorem parse_string_encBulk {bs : List Nat} (hlen : bs.length ≤ USIZE_MAX)
    (rest : List Nat) :
    parse_string (encBulk bs ++ rest) = (.ok bs, rest) := by
  rw [encBulk_append]
  exact parse_bulk_string_encoded hlen rest

/-!
## Association lookups (field/variant name resolution)
-/

theorem assocFind_eq_none {α : Type} {k : List Nat} :
    ∀ {l : List (List Nat × α)}, k ∉ l.map Prod.fst → assocFind k l = none := by
  intro l
  induction l with
  | nil => intro _; rfl
  | cons p t ih =>
    intro h
    obtain ⟨k1, a⟩ := p
    simp only [List.map_cons, List.mem_cons] at h
    push_neg at h
    simp only [assocFind]
    rw [if_neg (fun hh => h.1 hh.symm)]
    exact ih h.2

theorem assocFind_of_nodup {α : Type} {k : List Nat} {v : α} :
    ∀ {l : List (List Nat × α)}, (l.map Prod.fst).Nodup → (k, v) ∈ l →
      assocFind k l = some v := by
  intro l
  induction l with
  | nil => intro _ hmem; simp at hmem
  | cons p t ih =>
    intro hnd hmem
    obtain ⟨k1, a⟩ := p
    simp only [List.map_cons, List.nodup_cons] at hnd
    rcases List.mem_cons.mp hmem with h | h
    · injection h with h1 h2
      subst h1
      subst h2
      simp [assocFind]
    · have hk : k1 ≠ k := by
        intro hh
        subst hh
        exact hnd.1 (List.mem_map_of_mem Prod.fst h)
      simp only [assocFind]
      rw [if_neg hk]
      exact ih hnd.2 h

/-!
## Encoder inversion lemmas
-/

theorem encodeList_cons_inv {v : Value} {t : List Value} {body : List Nat}
    (h : encodeList (v :: t) = .ok body) :
    ∃ a b, encodeValue v = .ok a ∧ encodeList t = .ok b ∧ body = a ++ b := by
  rw [encodeList] at h
  cases hv : encodeValue v with
  | error e => rw [hv] at h; simp [Bind.bind, Except.bind] at h
  | ok a =>
    rw [hv] at h
    cases ht : encodeList t with
    | error e => rw [ht] at h; simp [Bind.bind, Except.bind] at h
    | ok b =>
      rw [ht] at h
      simp [Bind.bind, Except.bind] at h
      exact ⟨a, b, rfl, rfl, h.symm⟩

theorem encodePairs_cons_inv {k : List Nat} {v : Value}
    {t : List (List Nat × Value)} {body : List Nat}
    (h : encodePairs ((k, v) :: t) = .ok body) :
    ∃ a b, encodeValue v = .ok a ∧ encodePairs t = .ok b ∧
      body = encBulk k ++ (a ++ b) := by
  rw [encodePairs] at h
  cases hv : encodeValue v with
  | error e => rw [hv] at h; simp [Bind.bind, Except.bind] at h
  | ok a =>
    rw [hv] at h
    cases ht : encodePairs t with
    | error e => rw [ht] at h; simp [Bind.bind, Except.bind] at h
    | ok b =>
      rw [ht] at h
      simp [Bind.bind, Except.bind] at h
      exact ⟨a, b, rfl, rfl, by rw [← h]⟩

/-!
## Bounded-accessor loops: rendering then re-parsing
-/

theorem decodeCount_ok {d : Dec Value} :
    ∀ (vs : List Value) (body rest : List Nat),
      encodeList vs = .ok body →
      (∀ v ∈ vs, ∀ bsv r, encodeValue v = .ok bsv → d (bsv ++ r) = (.ok v, r)) →
      decodeCount d vs.length (body ++ rest) = (.ok vs, rest) := by
  intro vs
  induction vs with
  | nil =>
    intro body rest henc _
    simp [encodeList] at henc
    subst henc
    rfl
  | cons v t ih =>
    intro body rest henc hel
    obtain ⟨a, b, hv, ht, rfl⟩ := encodeList_cons_inv henc
    simp only [List.length_cons]
    rw [decodeCount, List.append_assoc]
    rw [Dec.bind_def, Dec.bind_apply_ok (hel v (by simp) a (b ++ rest) hv)]
    rw [Dec.bind_def,
      Dec.bind_apply_ok (ih b rest ht (fun x hx => hel x (by simp [hx])))]
    rfl

theorem decodeTupleElems_ok :
    ∀ (vs : List Value) (ds : List (Dec Value)) (body rest : List Nat),
      vs.length = ds.length →
      encodeList vs = .ok body →
      (∀ p ∈ vs.zip ds, ∀ bsv r, encodeValue p.1 = .ok bsv → p.2 (bsv ++ r) = (.ok p.1, r)) →
      decodeTupleElems ds vs.length (body ++ rest) = (.ok vs, rest) := by
  intro vs
  induction vs with
  | nil =>
    intro ds body rest hlen henc _
    have hds : ds = [] := List.eq_nil_of_length_eq_zero hlen.symm
    subst hds
    simp [encodeList] at henc
    subst henc
    rfl
  | cons v t ih =>
    intro ds body rest hlen henc hel
    match ds with
    | [] => simp at hlen
    | d :: ds1 =>
      obtain ⟨a, b, hv, ht, rfl⟩ := encodeList_cons_inv henc
      simp only [List.length_cons]
      rw [decodeTupleElems, List.append_assoc]
      rw [Dec.bind_def, Dec.bind_apply_ok (hel (v, d) (by simp) a (b ++ rest) hv)]
      rw [Dec.bind_def,
        Dec.bind_apply_ok (ih ds1 b rest (by simpa using hlen) ht
          (fun p hp => hel p (by simp [hp])))]
      rfl

theorem decodeMapPairs_ok {d : Dec Value} :
    ∀ (kvs : List (List Nat × Value)) (body rest : List Nat),
      encodePairs kvs = .ok body →
      (∀ p ∈ kvs, p.1.length ≤ USIZE_MAX) →
      (∀ p ∈ kvs, ∀ bsv r, encodeValue p.2 = .ok bsv → d (bsv ++ r) = (.ok p.2, r)) →
      decodeMapPairs d kvs.length (body ++ rest) = (.ok kvs, rest) := by
  intro kvs
  induction kvs with
  | nil =>
    intro body rest henc _ _
    simp [encodePairs] at henc
    subst henc
    rfl
  | cons p t ih =>
    intro body rest henc hkl hel
    obtain ⟨k, v⟩ := p
    obtain ⟨a, b, hv, ht, rfl⟩ := encodePairs_cons_inv henc
    simp only [List.length_cons]
    rw [decodeMapPairs, List.append_assoc]
    rw [Dec.bind_def,
      Dec.bind_apply_ok (parse_string_encBulk (hkl (k, v) (by simp)) _)]
    rw [List.append_assoc]
    rw [Dec.bind_def, Dec.bind_apply_ok (hel (k, v) (by simp) a (b ++ rest) hv)]
    rw [Dec.bind_def,
      Dec.bind_apply_ok (ih b rest ht (fun x hx => hkl x (by simp [hx]))
        (fun x hx => hel x (by simp [hx])))]
    rfl

theorem collectFields_ok :
    ∀ (fds : List (List Nat × Dec Value)) (kvs seen : List (List Nat × Value)),
      fds.length = kvs.length →
      (∀ p ∈ fds.zip kvs, p.1.1 = p.2.1) →
      (∀ p ∈ kvs, assocFind p.1 seen = some p.2) →
      collectFields fds seen = .ok kvs := by
  intro fds
  induction fds with
  | nil =>
    intro kvs seen hlen _ _
    have : kvs = [] := List.eq_nil_of_length_eq_zero hlen.symm
    subst this
    rfl
  | cons f fds1 ih =>
    intro kvs seen hlen hnames hfind
    match kvs with
    | [] => simp at hlen
    | (k, v) :: kvs1 =>
      obtain ⟨fn, fd⟩ := f
      have hfn : fn = k := hnames ((fn, fd), (k, v)) (by simp)
      subst hfn
      simp only [collectFields]
      rw [show assocFind fn seen = some v from hfind (fn, v) (by simp)]
      rw [ih kvs1 seen (by simpa using hlen)
        (fun p hp => hnames p (by simp [hp]))
        (fun p hp => hfind p (by simp [hp]))]

theorem decodeStructPairs_ok (fds : List (List Nat × Dec Value)) :
    ∀ (kvs2 kvs1 : List (List Nat × Value)) (body rest : List Nat),
      encodePairs kvs2 = .ok body →
      fds.length = (kvs1 ++ kvs2).length →
      (∀ p ∈ fds.zip (kvs1 ++ kvs2), p.1.1 = p.2.1) →
      ((kvs1 ++ kvs2).map Prod.fst).Nodup →
      (∀ p ∈ kvs2, p.1.length ≤ USIZE_MAX) →
      (∀ p ∈ kvs2, ∃ d, assocFind p.1 fds = some d ∧
        ∀ bsv r, encodeValue p.2 = .ok bsv → d (bsv ++ r) = (.ok p.2, r)) →
      decodeStructPairs fds kvs2.length kvs1 (body ++ rest) = (.ok (kvs1 ++ kvs2), rest) := by
  intro kvs2
  induction kvs2 with
  | nil =>
    intro kvs1 body rest henc hlen hnames hnd _ _
    simp [encodePairs] at henc
    subst henc
    simp only [List.append_nil] at hlen hnames hnd
    have hcf : collectFields fds kvs1 = .ok kvs1 :=
      collectFields_ok fds kvs1 kvs1 hlen hnames
        (fun p hp => assocFind_of_nodup hnd (by
          obtain ⟨pk, pv⟩ := p
          exact hp))
    show (collectFields fds kvs1, ([] : List Nat) ++ rest) = (Except.ok (kvs1 ++ []), rest)
    rw [hcf]
    simp
  | cons p t ih =>
    intro kvs1 body rest henc hlen hnames hnd hkl hdec
    obtain ⟨k, v⟩ := p
    obtain ⟨a, b, hv, ht, rfl⟩ := encodePairs_cons_inv henc
    have hrearr : kvs1 ++ (k, v) :: t = (kvs1 ++ [(k, v)]) ++ t := by
      simp
    simp only [List.length_cons]
    rw [decodeStructPairs, List.append_assoc]
    rw [Dec.bind_def,
      Dec.bind_apply_ok (parse_string_encBulk (hkl (k, v) (by simp)) _)]
    obtain ⟨d, hd, hdp⟩ := hdec (k, v) (by simp)
    rw [hd]
    simp only []
    have hknotin : k ∉ kvs1.map Prod.fst := by
      intro hmem
      have hnd1 := hnd
      rw [List.map_append] at hnd1
      rcases List.nodup_append.mp hnd1 with ⟨_, _, hdisj⟩
      exact hdisj hmem (by simp)
    rw [assocFind_eq_none hknotin]
    rw [if_neg (by simp)]
    rw [List.append_assoc]
    rw [Dec.bind_def, Dec.bind_apply_ok (hdp a (b ++ rest) hv)]
    have hfin := ih (kvs1 ++ [(k, v)]) b rest ht
      (by rw [← hrearr]; exact hlen)
      (by rw [← hrearr]; exact hnames)
      (by rw [← hrearr]; exact hnd)
      (fun x hx => hkl x (by simp [hx]))
      (fun x hx => hdec x (by simp [hx]))
    rw [hfin, ← hrearr]

/-!
## Per-shape decode lemmas on encoder output
-/

theorem intDecBytes_numeric {n : Int} : ∀ b ∈ intDecBytes n, isNumericChar b = true := by
  intro b hb
  unfold intDecBytes at hb
  by_cases h : n < 0
  · rw [if_pos h] at hb
    rcases List.mem_cons.mp hb with h1 | h1
    · subst h1; decide
    · have := natDec_all_digits b h1
      simp [isNumericChar, isDigitB]
      omega
  · rw [if_neg h] at hb
    have := natDec_all_digits b hb
    simp [isNumericChar, isDigitB]
    omega

theorem intDecBytes_of_nonneg {n : Int} (h : 0 ≤ n) : intDecBytes n = natDec n.toNat := by
  unfold intDecBytes
  rw [if_neg (by omega)]

theorem seqHeader_ok {n : Nat} (hn : n ≤ USIZE_MAX) (x : List Nat) :
    seqHeader (42 :: (natDec n ++ 13 :: 10 :: x)) = (.ok n, x) := by
  unfold seqHeader
  rw [Dec.bind_def,
    Dec.bind_apply_ok (show peek_byte (42 :: (natDec n ++ 13 :: 10 :: x)) =
      (.ok 42, 42 :: (natDec n ++ 13 :: 10 :: x)) from rfl)]
  simp only [prefixToKind?]
  rw [if_pos (Or.inl trivial)]
  rw [Dec.bind_def,
    Dec.bind_apply_ok (show expect_byte 42 (42 :: (natDec n ++ 13 :: 10 :: x)) =
      (.ok (), natDec n ++ 13 :: 10 :: x) from rfl)]
  rw [Dec.bind_def, Dec.bind_apply_ok (expect_length_natDec hn (10 :: x))]
  rw [Dec.bind_def,
    Dec.bind_apply_ok (show expect_crlf (13 :: 10 :: x) = (.ok (), x) from rfl)]
  rfl

theorem mapHeader_ok {n : Nat} (hn : n ≤ USIZE_MAX) (x : List Nat) :
    mapHeader (37 :: (natDec n ++ 13 :: 10 :: x)) = (.ok n, x) := by
  unfold mapHeader
  rw [Dec.bind_def,
    Dec.bind_apply_ok (show peek_byte (37 :: (natDec n ++ 13 :: 10 :: x)) =
      (.ok 37, 37 :: (natDec n ++ 13 :: 10 :: x)) from rfl)]
  simp only [prefixToKind?]
  rw [if_pos (Or.inl trivial)]
  rw [Dec.bind_def,
    Dec.bind_apply_ok (show expect_byte 37 (37 :: (natDec n ++ 13 :: 10 :: x)) =
      (.ok (), natDec n ++ 13 :: 10 :: x) from rfl)]
  rw [Dec.bind_def, Dec.bind_apply_ok (expect_length_natDec hn (10 :: x))]
  rw [Dec.bind_def,
    Dec.bind_apply_ok (show expect_crlf (13 :: 10 :: x) = (.ok (), x) from rfl)]
  rfl

theorem decodeStep_bool_ok {rec : Shape → Dec Value} (b : Bool) (rest : List Nat) :
    decodeStep rec .sBool ((35 :: (if b then 116 else 102) :: CRLF) ++ rest) =
      (.ok (.vBool b), rest) := by
  cases b <;> rfl

theorem decodeStep_num_ok {rec : Shape → Dec Value} {w : NumWidth}
    (hw1 : w ≠ .i128) (hw2 : w ≠ .u128) {n : Int} (h1 : w.lo ≤ n) (h2 : n ≤ w.hi)
    (rest : List Nat) :
    decodeStep rec (.sNum w) (58 :: (intDecBytes n ++ 13 :: 10 :: rest)) =
      (.ok (.vInt w n), rest) := by
  have hp : parse_number w (58 :: (intDecBytes n ++ 13 :: 10 :: rest)) = (.ok n, rest) := by
    rw [parse_number_token (rfl : prefixToKind? 58 = some .Integer) (Or.inl rfl)
      intDecBytes_numeric rest]
    rw [rustIntFromStr_intDec h1 h2]
  cases w
  case i128 => exact absurd rfl hw1
  case u128 => exact absurd rfl hw2
  all_goals simp only [decodeStep]
  all_goals rw [Dec.bind_def, Dec.bind_apply_ok hp]
  all_goals rfl

theorem decodeStep_float_ok {rec : Shape → Dec Value} {fw : FloatWidth} {tok : List Nat}
    (hcanon : rustFloatFromStr tok = some (.finite tok))
    (htok : ∀ b ∈ tok, isNumericChar b = true) (rest : List Nat) :
    decodeStep rec (.sFloat fw) (44 :: (tok ++ 13 :: 10 :: rest)) =
      (.ok (.vFloat fw (.finite tok)), rest) := by
  have hp : parse_float fw (44 :: (tok ++ 13 :: 10 :: rest)) = (.ok (.finite tok), rest) := by
    rw [parse_float_token (rfl : prefixToKind? 44 = some .Float) (Or.inr (Or.inl rfl)) htok rest]
    rw [hcanon]
  simp only [decodeStep]
  rw [Dec.bind_def, Dec.bind_apply_ok hp]
  rfl

theorem decodeStep_u64_ok {rec : Shape → Dec Value} {m : Nat}
    (hm : (m : Int) ≤ NumWidth.hi .u64) (rest : List Nat) :
    decodeStep rec (.sNum .u64) (40 :: (natDec m ++ 13 :: 10 :: rest)) =
      (.ok (.vInt .u64 (m : Int)), rest) := by
  have hp : parse_number .u64 (40 :: (natDec m ++ 13 :: 10 :: rest)) =
      (.ok (m : Int), rest) := by
    have hdec : natDec m = intDecBytes (m : Int) := by
      rw [intDecBytes_of_nonneg (by omega : (0 : Int) ≤ (m : Int))]
      simp
    rw [hdec]
    rw [parse_number_token (rfl : prefixToKind? 40 = some .BigNumber)
      (Or.inr (Or.inr rfl)) intDecBytes_numeric rest]
    rw [rustIntFromStr_intDec (by simp [NumWidth.lo]) hm]
  simp only [decodeStep]
  rw [Dec.bind_def, Dec.bind_apply_ok hp]
  rfl

theorem decodeStep_str_ok {rec : Shape → Dec Value} {bs : List Nat}
    (hlen : bs.length ≤ USIZE_MAX) (rest : List Nat) :
    decodeStep rec .sStr (encBulk bs ++ rest) = (.ok (.vStr bs), rest) := by
  simp only [decodeStep]
  rw [Dec.bind_def, Dec.bind_apply_ok (parse_string_encBulk hlen rest)]
  rfl

theorem charUtf8_ascii {c : Char} (hc : c.toNat < 128) : charUtf8 c = [c.toNat] := by
  unfold charUtf8
  rw [if_pos hc]

theorem decodeStep_char_ok {rec : Shape → Dec Value} {c : Char}
    (hc : c.toNat < 128) (rest : List Nat) :
    decodeStep rec .sChar (encBulk (charUtf8 c) ++ rest) = (.ok (.vChar c), rest) := by
  rw [charUtf8_ascii hc]
  simp only [decodeStep]
  rw [Dec.bind_def, Dec.bind_apply_ok (parse_string_encBulk (by simp [USIZE_MAX]) rest)]
  simp only [List.length_cons, List.length_nil]
  rw [if_neg (by omega)]
  show (Pure.pure (Value.vChar (Char.ofNat c.toNat)) : Dec Value) rest =
    (Except.ok (Value.vChar c), rest)
  rw [Char.ofNat_toNat]
  rfl

theorem decodeStep_unit_ok {rec : Shape → Dec Value} (rest : List Nat) :
    decodeStep rec .sUnit ((95 :: CRLF) ++ rest) = (.ok .vUnit, rest) := rfl

theorem decodeStep_option_none_ok {rec : Shape → Dec Value} (inner : Shape)
    (rest : List Nat) :
    decodeStep rec (.sOption inner) ((95 :: CRLF) ++ rest) = (.ok .vNone, rest) := rfl

theorem decodeStep_option_some_ok {rec : Shape → Dec Value} {inner : Shape}
    {b : Nat} {t rest : List Nat} {v : Value} (hb : b ≠ 95)
    (hrec : rec inner ((b :: t) ++ rest) = (.ok v, rest)) :
    decodeStep rec (.sOption inner) ((b :: t) ++ rest) = (.ok (.vSome v), rest) := by
  simp only [decodeStep]
  rw [if_neg (by simp [hb])]
  rw [Dec.bind_def, Dec.bind_apply_ok hrec]
  rfl

theorem decodeStep_seq_ok {rec : Shape → Dec Value} {elem : Shape}
    {vs : List Value} {body rest : List Nat}
    (hn : vs.length ≤ USIZE_MAX)
    (henc : encodeList vs = .ok body)
    (hel : ∀ v ∈ vs, ∀ bsv r, encodeValue v = .ok bsv →
      rec elem (bsv ++ r) = (.ok v, r)) :
    decodeStep rec (.sSeq elem) (42 :: (natDec vs.length ++ 13 :: 10 :: (body ++ rest))) =
      (.ok (.vSeq vs), rest) := by
  simp only [decodeStep]
  rw [Dec.bind_def, Dec.bind_apply_ok (seqHeader_ok hn (body ++ rest))]
  rw [Dec.bind_def, Dec.bind_apply_ok (decodeCount_ok vs body rest henc hel)]
  rfl

theorem decodeStep_tuple_ok {rec : Shape → Dec Value} {elems : List Shape}
    {vs : List Value} {body rest : List Nat}
    (hlen : vs.length = elems.length)
    (hn : vs.length ≤ USIZE_MAX)
    (henc : encodeList vs = .ok body)
    (hel : ∀ p ∈ vs.zip elems, ∀ bsv r, encodeValue p.1 = .ok bsv →
      rec p.2 (bsv ++ r) = (.ok p.1, r)) :
    decodeStep rec (.sTuple elems) (42 :: (natDec vs.length ++ 13 :: 10 :: (body ++ rest))) =
      (.ok (.vTuple vs), rest) := by
  simp only [decodeStep]
  rw [Dec.bind_def, Dec.bind_apply_ok (seqHeader_ok hn (body ++ rest))]
  have hzip : ∀ p ∈ vs.zip (elems.map rec), ∀ bsv r, encodeValue p.1 = .ok bsv →
      p.2 (bsv ++ r) = (.ok p.1, r) := by
    intro p hp
    rw [List.zip_map_right] at hp
    simp only [List.mem_map] at hp
    obtain ⟨q, hq, rfl⟩ := hp
    exact hel q hq
  rw [Dec.bind_def,
    Dec.bind_apply_ok (decodeTupleElems_ok vs (elems.map rec) body rest
      (by simpa using hlen) henc hzip)]
  rfl

theorem decodeStep_map_ok {rec : Shape → Dec Value} {velem : Shape}
    {kvs : List (List Nat × Value)} {body rest : List Nat}
    (hn : kvs.length ≤ USIZE_MAX)
    (hkl : ∀ p ∈ kvs, p.1.length ≤ USIZE_MAX)
    (henc : encodePairs kvs = .ok body)
    (hel : ∀ p ∈ kvs, ∀ bsv r, encodeValue p.2 = .ok bsv →
      rec velem (bsv ++ r) = (.ok p.2, r)) :
    decodeStep rec (.sMap velem) (37 :: (natDec kvs.length ++ 13 :: 10 :: (body ++ rest))) =
      (.ok (.vMap kvs), rest) := by
  simp only [decodeStep]
  rw [Dec.bind_def, Dec.bind_apply_ok (mapHeader_ok hn (body ++ rest))]
  rw [Dec.bind_def, Dec.bind_apply_ok (decodeMapPairs_ok kvs body rest henc hkl hel)]
  rfl

theorem map_fst_eq_of_zip {α β : Type} :
    ∀ {l1 : List (List Nat × α)} {l2 : List (List Nat × β)},
      l1.length = l2.length →
      (∀ p ∈ l1.zip l2, p.1.1 = p.2.1) →
      (l1.map Prod.fst) = (l2.map Prod.fst) := by
  intro l1
  induction l1 with
  | nil =>
    intro l2 hlen _
    have : l2 = [] := List.eq_nil_of_length_eq_zero hlen.symm
    subst this
    rfl
  | cons p t ih =>
    intro l2 hlen hnm
    match l2 with
    | [] => simp at hlen
    | q :: t2 =>
      have h1 : p.1 = q.1 := hnm (p, q) (by simp)
      have h2 := @ih t2 (by simpa using hlen) (fun x hx => hnm x (by simp [hx]))
      simp only [List.map_cons]
      rw [h1, h2]

theorem mem_zip_left {α β : Type} :
    ∀ {l1 : List α} {l2 : List β}, l1.length = l2.length →
      ∀ a ∈ l1, ∃ b, (a, b) ∈ l1.zip l2 := by
  intro l1
  induction l1 with
  | nil => intro l2 _ a ha; simp at ha
  | cons x t ih =>
    intro l2 hlen a ha
    match l2 with
    | [] => simp at hlen
    | y :: t2 =>
      rcases List.mem_cons.mp ha with h | h
      · subst h
        exact ⟨y, by simp⟩
      · obtain ⟨b, hb⟩ := @ih t2 (by simpa using hlen) a h
        exact ⟨b, by simp [hb]⟩

theorem peek_byte_cons (b : Nat) (t : List Nat) : peek_byte (b :: t) = (.ok b, b :: t) := rfl

theorem expect_byte_cons_self (b : Nat) (t : List Nat) :
    expect_byte b (b :: t) = (.ok (), t) := by
  unfold expect_byte
  rw [Dec.bind_def, Dec.bind_apply_ok (show next_byte (b :: t) = (.ok b, t) from rfl)]
  rw [if_pos rfl]
  rfl

theorem zip_names_of_map_fst {α β : Type} :
    ∀ {l1 : List (List Nat × α)} {l2 : List (List Nat × β)},
      l1.map Prod.fst = l2.map Prod.fst →
      ∀ p ∈ l1.zip l2, p.1.1 = p.2.1 := by
  intro l1
  induction l1 with
  | nil => intro l2 _ p hp; simp at hp
  | cons q t ih =>
    intro l2 hm p hp
    match l2 with
    | [] => simp at hp
    | r :: t2 =>
      simp only [List.map_cons, List.cons.injEq] at hm
      rcases List.mem_cons.mp hp with h | h
      · subst h; exact hm.1
      · exact @ih t2 hm.2 p h

theorem decodeStep_struct_ok {rec : Shape → Dec Value} {fields : List (List Nat × Shape)}
    {kvs : List (List Nat × Value)} {body rest : List Nat}
    (hlen : kvs.length = fields.length)
    (hn : kvs.length ≤ USIZE_MAX)
    (hnames : ∀ p ∈ kvs.zip fields, p.1.1 = p.2.1)
    (hkl : ∀ p ∈ kvs, p.1.length ≤ USIZE_MAX)
    (hnd : (kvs.map Prod.fst).Nodup)
    (henc : encodePairs kvs = .ok body)
    (hel : ∀ p ∈ kvs.zip fields, ∀ bsv r, encodeValue p.1.2 = .ok bsv →
      rec p.2.2 (bsv ++ r) = (.ok p.1.2, r)) :
    decodeStep rec (.sStruct fields) (37 :: (natDec kvs.length ++ 13 :: 10 :: (body ++ rest))) =
      (.ok (.vStruct kvs), rest) := by
  have hmf : kvs.map Prod.fst = fields.map Prod.fst := map_fst_eq_of_zip hlen hnames
  simp only [decodeStep]
  rw [Dec.bind_def, Dec.bind_apply_ok (mapHeader_ok hn (body ++ rest))]
  have hfds : (fields.map (fun f => (f.1, rec f.2))).map Prod.fst = kvs.map Prod.fst := by
    rw [hmf]
    simp
  have hdec : ∀ p ∈ kvs, ∃ d, assocFind p.1 (fields.map (fun f => (f.1, rec f.2))) = some d ∧
      ∀ bsv r, encodeValue p.2 = .ok bsv → d (bsv ++ r) = (.ok p.2, r) := by
    intro p hp
    obtain ⟨f, hf⟩ := mem_zip_left hlen p hp
    have hname : p.1 = f.1 := hnames (p, f) hf
    have hfin : f ∈ fields := (List.of_mem_zip hf).2
    refine ⟨rec f.2, ?_, fun bsv r he => hel (p, f) hf bsv r he⟩
    apply assocFind_of_nodup (by rw [hfds]; exact hnd)
    rw [hname]
    exact List.mem_map_of_mem (fun f => (f.1, rec f.2)) hfin
  have hrun := decodeStructPairs_ok (fields.map (fun f => (f.1, rec f.2))) kvs [] body rest
    henc
    (by simp [hlen])
    (by
      simp only [List.nil_append]
      exact zip_names_of_map_fst hfds
    )
    (by simpa using hnd)
    hkl
    hdec
  simp only [List.nil_append] at hrun
  rw [Dec.bind_def, Dec.bind_apply_ok hrun]
  rfl

theorem parse_string_encBulk_cons {name : List Nat} (hnl : name.length ≤ USIZE_MAX)
    (rest : List Nat) :
    parse_string (36 :: (natDec name.length ++ 13 :: 10 :: (name ++ 13 :: 10 :: rest))) =
      (.ok name, rest) := by
  rw [← encBulk_append]
  exact parse_string_encBulk hnl rest

theorem decodeStep_unitVariant_ok {rec : Shape → Dec Value}
    {variants : List (List Nat × VariantKind)} {name : List Nat}
    (hfind : assocFind name variants = some .unitK)
    (hnl : name.length ≤ USIZE_MAX) (rest : List Nat) :
    decodeStep rec (.sEnum variants) (encBulk name ++ rest) =
      (.ok (.vUnitVariant name), rest) := by
  rw [encBulk_append]
  simp only [decodeStep]
  rw [Dec.bind_def, Dec.bind_apply_ok (peek_byte_cons 36 _)]
  simp only [prefixToKind?, RespDataKind.isStringFamily]
  rw [if_pos trivial]
  rw [Dec.bind_def, Dec.bind_apply_ok (parse_string_encBulk_cons hnl rest)]
  rw [hfind]
  rfl

theorem decodeStep_newtypeVariant_ok {rec : Shape → Dec Value}
    {variants : List (List Nat × VariantKind)} {name : List Nat} {ps : Shape}
    {v : Value} {pv rest : List Nat}
    (hfind : assocFind name variants = some (.newtypeK ps))
    (hnl : name.length ≤ USIZE_MAX)
    (hrec : rec ps (pv ++ rest) = (.ok v, rest)) :
    decodeStep rec (.sEnum variants)
      (37 :: (natDec 1 ++ 13 :: 10 :: (36 :: (natDec name.length ++ 13 :: 10 ::
        (name ++ 13 :: 10 :: (pv ++ rest)))))) =
      (.ok (.vNewtypeVariant name v), rest) := by
  simp only [decodeStep]
  rw [Dec.bind_def, Dec.bind_apply_ok (peek_byte_cons 37 _)]
  simp only [prefixToKind?, RespDataKind.isStringFamily]
  rw [if_neg (by simp)]
  rw [if_pos (Or.inl trivial)]
  rw [Dec.bind_def, Dec.bind_apply_ok (expect_byte_cons_self 37 _)]
  rw [Dec.bind_def, Dec.bind_apply_ok (expect_length_natDec (by simp [USIZE_MAX]) _)]
  rw [if_neg (by omega)]
  rw [Dec.bind_def,
    Dec.bind_apply_ok (show expect_crlf (13 :: 10 :: (36 :: (natDec name.length ++ 13 :: 10 ::
      (name ++ 13 :: 10 :: (pv ++ rest))))) = (.ok (), 36 :: (natDec name.length ++ 13 :: 10 ::
      (name ++ 13 :: 10 :: (pv ++ rest)))) from rfl)]
  rw [Dec.bind_def, Dec.bind_apply_ok (parse_string_encBulk_cons hnl (pv ++ rest))]
  rw [hfind]
  show (rec ps >>= fun w => Pure.pure (Value.vNewtypeVariant name w)) (pv ++ rest) =
    (Except.ok (Value.vNewtypeVariant name v), rest)
  rw [Dec.bind_def, Dec.bind_apply_ok hrec]
  rfl
theorem decodeStep_tupleVariant_ok {rec : Shape → Dec Value}
    {variants : List (List Nat × VariantKind)} {name : List Nat} {pss : List Shape}
    {vs : List Value} {body rest : List Nat}
    (hfind : assocFind name variants = some (.tupleK pss))
    (hnl : name.length ≤ USIZE_MAX)
    (hlen : vs.length = pss.length)
    (hn : vs.length ≤ USIZE_MAX)
    (henc : encodeList vs = .ok body)
    (hel : ∀ p ∈ vs.zip pss, ∀ bsv r, encodeValue p.1 = .ok bsv →
      rec p.2 (bsv ++ r) = (.ok p.1, r)) :
    decodeStep rec (.sEnum variants)
      (37 :: (natDec 1 ++ 13 :: 10 :: (36 :: (natDec name.length ++ 13 :: 10 ::
        (name ++ 13 :: 10 :: (42 :: (natDec vs.length ++ 13 :: 10 ::
          (body ++ rest)))))))) =
      (.ok (.vTupleVariant name vs), rest) := by
  simp only [decodeStep]
  rw [Dec.bind_def, Dec.bind_apply_ok (peek_byte_cons 37 _)]
  simp only [prefixToKind?, RespDataKind.isStringFamily]
  rw [if_neg (by simp)]
  rw [if_pos (Or.inl trivial)]
  rw [Dec.bind_def, Dec.bind_apply_ok (expect_byte_cons_self 37 _)]
  rw [Dec.bind_def, Dec.bind_apply_ok (expect_length_natDec (by simp [USIZE_MAX]) _)]
  rw [if_neg (by omega)]
  rw [Dec.bind_def,
    Dec.bind_apply_ok (show expect_crlf (13 :: 10 :: (36 :: (natDec name.length ++ 13 :: 10 ::
      (name ++ 13 :: 10 :: (42 :: (natDec vs.length ++ 13 :: 10 :: (body ++ rest))))))) =
      (.ok (), 36 :: (natDec name.length ++ 13 :: 10 ::
      (name ++ 13 :: 10 :: (42 :: (natDec vs.length ++ 13 :: 10 :: (body ++ rest))))))
      from rfl)]
  rw [Dec.bind_def, Dec.bind_apply_ok (parse_string_encBulk_cons hnl _)]
  rw [hfind]
  show (seqHeader >>= fun len2 => decodeTupleElems (List.map rec pss) len2 >>=
      fun ws => Pure.pure (Value.vTupleVariant name ws))
      (42 :: (natDec vs.length ++ 13 :: 10 :: (body ++ rest))) =
    (Except.ok (Value.vTupleVariant name vs), rest)
  rw [Dec.bind_def, Dec.bind_apply_ok (seqHeader_ok hn (body ++ rest))]
  have hzip : ∀ p ∈ vs.zip (pss.map rec), ∀ bsv r, encodeValue p.1 = .ok bsv →
      p.2 (bsv ++ r) = (.ok p.1, r) := by
    intro p hp
    rw [List.zip_map_right] at hp
    simp only [List.mem_map] at hp
    obtain ⟨q, hq, rfl⟩ := hp
    exact hel q hq
  rw [Dec.bind_def,
    Dec.bind_apply_ok (decodeTupleElems_ok vs (pss.map rec) body rest
      (by simpa using hlen) henc hzip)]
  rfl

theorem decodeStep_structVariant_ok {rec : Shape → Dec Value}
    {variants : List (List Nat × VariantKind)} {name : List Nat}
    {pfs : List (List Nat × Shape)} {kvs : List (List Nat × Value)} {body rest : List Nat}
    (hfind : assocFind name variants = some (.structK pfs))
    (hnl : name.length ≤ USIZE_MAX)
    (hlen : kvs.length = pfs.length)
    (hn : kvs.length ≤ USIZE_MAX)
    (hnames : ∀ p ∈ kvs.zip pfs, p.1.1 = p.2.1)
    (hkl : ∀ p ∈ kvs, p.1.length ≤ USIZE_MAX)
    (hnd : (kvs.map Prod.fst).Nodup)
    (henc : encodePairs kvs = .ok body)
    (hel : ∀ p ∈ kvs.zip pfs, ∀ bsv r, encodeValue p.1.2 = .ok bsv →
      rec p.2.2 (bsv ++ r) = (.ok p.1.2, r)) :
    decodeStep rec (.sEnum variants)
      (37 :: (natDec 1 ++ 13 :: 10 :: (36 :: (natDec name.length ++ 13 :: 10 ::
        (name ++ 13 :: 10 :: (37 :: (natDec kvs.length ++ 13 :: 10 ::
          (body ++ rest)))))))) =
      (.ok (.vStructVariant name kvs), rest) := by
  have hmf : kvs.map Prod.fst = pfs.map Prod.fst := map_fst_eq_of_zip hlen hnames
  simp only [decodeStep]
  rw [Dec.bind_def, Dec.bind_apply_ok (peek_byte_cons 37 _)]
  simp only [prefixToKind?, RespDataKind.isStringFamily]
  rw [if_neg (by simp)]
  rw [if_pos (Or.inl trivial)]
  rw [Dec.bind_def, Dec.bind_apply_ok (expect_byte_cons_self 37 _)]
  rw [Dec.bind_def, Dec.bind_apply_ok (expect_length_natDec (by simp [USIZE_MAX]) _)]
  rw [if_neg (by omega)]
  rw [Dec.bind_def,
    Dec.bind_apply_ok (show expect_crlf (13 :: 10 :: (36 :: (natDec name.length ++ 13 :: 10 ::
      (name ++ 13 :: 10 :: (37 :: (natDec kvs.length ++ 13 :: 10 :: (body ++ rest))))))) =
      (.ok (), 36 :: (natDec name.length ++ 13 :: 10 ::
      (name ++ 13 :: 10 :: (37 :: (natDec kvs.length ++ 13 :: 10 :: (body ++ rest))))))
      from rfl)]
  rw [Dec.bind_def, Dec.bind_apply_ok (parse_string_encBulk_cons hnl _)]
  rw [hfind]
  show (mapHeader >>= fun len2 =>
      decodeStructPairs (List.map (fun f => (f.1, rec f.2)) pfs) len2 [] >>=
      fun ws => Pure.pure (Value.vStructVariant name ws))
      (37 :: (natDec kvs.length ++ 13 :: 10 :: (body ++ rest))) =
    (Except.ok (Value.vStructVariant name kvs), rest)
  rw [Dec.bind_def, Dec.bind_apply_ok (mapHeader_ok hn (body ++ rest))]
  have hfds : (pfs.map (fun f => (f.1, rec f.2))).map Prod.fst = kvs.map Prod.fst := by
    rw [hmf]
    simp
  have hdec : ∀ p ∈ kvs, ∃ d, assocFind p.1 (pfs.map (fun f => (f.1, rec f.2))) = some d ∧
      ∀ bsv r, encodeValue p.2 = .ok bsv → d (bsv ++ r) = (.ok p.2, r) := by
    intro p hp
    obtain ⟨f, hf⟩ := mem_zip_left hlen p hp
    have hname : p.1 = f.1 := hnames (p, f) hf
    have hfin : f ∈ pfs := (List.of_mem_zip hf).2
    refine ⟨rec f.2, ?_, fun bsv r he => hel (p, f) hf bsv r he⟩
    apply assocFind_of_nodup (by rw [hfds]; exact hnd)
    rw [hname]
    exact List.mem_map_of_mem (fun f => (f.1, rec f.2)) hfin
  have hrun := decodeStructPairs_ok (pfs.map (fun f => (f.1, rec f.2))) kvs [] body rest
    henc
    (by simp [hlen])
    (by
      simp only [List.nil_append]
      exact zip_names_of_map_fst hfds)
    (by simpa using hnd)
    hkl
    hdec
  simp only [List.nil_append] at hrun
  rw [Dec.bind_def, Dec.bind_apply_ok hrun]
  rfl

theorem assocFind_mem {α : Type} {k : List Nat} {a : α} :
    ∀ {l : List (List Nat × α)}, assocFind k l = some a → (k, a) ∈ l := by
  intro l
  induction l with
  | nil => intro h; simp [assocFind] at h
  | cons p t ih =>
    intro h
    obtain ⟨k1, b⟩ := p
    simp only [assocFind] at h
    by_cases hk : k1 = k
    · rw [if_pos hk] at h
      injection h with h1
      subst hk
      subst h1
      simp
    · rw [if_neg hk] at h
      simp [ih h]

theorem encode_head_ne_null :
    ∀ (N : Nat) (v : Value), sizeOf v < N → startsNull v = false →
      ∀ bs, encodeValue v = .ok bs → ∃ b t, bs = b :: t ∧ b ≠ 95 := by
  intro N
  induction N with
  | zero => intro v h; omega
  | succ N ih =>
    intro v hsz hnull bs henc
    cases v with
    | vBool b =>
      simp [encodeValue] at henc
      exact ⟨35, _, henc.symm, by omega⟩
    | vFloat fw f =>
      simp [encodeValue] at henc
      exact ⟨44, _, henc.symm, by omega⟩
    | vInt w n =>
      cases w <;>
        first
          | (simp [encodeValue] at henc; done)
          | (simp [encodeValue] at henc
             exact ⟨40, _, henc.symm, by omega⟩)
          | (simp [encodeValue] at henc
             exact ⟨58, _, henc.symm, by omega⟩)
    | vChar c =>
      simp [encodeValue, encBulk] at henc
      exact ⟨36, _, henc.symm, by omega⟩
    | vStr s =>
      simp [encodeValue, encBulk] at henc
      exact ⟨36, _, henc.symm, by omega⟩
    | vBytes s =>
      simp [encodeValue, encBulk] at henc
      exact ⟨36, _, henc.symm, by omega⟩
    | vUnit => simp [startsNull] at hnull
    | vNone => simp [startsNull] at hnull
    | vSome v1 =>
      have hs1 : sizeOf v1 < N := by
        have h1 : sizeOf (Value.vSome v1) = 1 + sizeOf v1 := by simp
        omega
      exact ih v1 hs1 (by simpa [startsNull] using hnull) bs
        (by rw [encodeValue] at henc; exact henc)
    | vSeq vs =>
      cases hb : encodeList vs with
      | error e => rw [encodeValue, hb] at henc; simp [Bind.bind, Except.bind] at henc
      | ok body =>
        rw [encodeValue, hb] at henc
        simp [Bind.bind, Except.bind, serialize_seq_header] at henc
        exact ⟨42, _, henc.symm, by omega⟩
    | vTuple vs =>
      cases hb : encodeList vs with
      | error e => rw [encodeValue, hb] at henc; simp [Bind.bind, Except.bind] at henc
      | ok body =>
        rw [encodeValue, hb] at henc
        simp [Bind.bind, Except.bind, serialize_seq_header] at henc
        exact ⟨42, _, henc.symm, by omega⟩
    | vMap kvs =>
      cases hb : encodePairs kvs with
      | error e => rw [encodeValue, hb] at henc; simp [Bind.bind, Except.bind, serialize_map] at henc
      | ok body =>
        rw [encodeValue, hb] at henc
        simp [Bind.bind, Except.bind, serialize_map] at henc
        exact ⟨37, _, henc.symm, by omega⟩
    | vStruct kvs =>
      cases hb : encodePairs kvs with
      | error e => rw [encodeValue, hb] at henc; simp [Bind.bind, Except.bind, serialize_map] at henc
      | ok body =>
        rw [encodeValue, hb] at henc
        simp [Bind.bind, Except.bind, serialize_map] at henc
        exact ⟨37, _, henc.symm, by omega⟩
    | vUnitVariant name =>
      simp [encodeValue, encBulk] at henc
      exact ⟨36, _, henc.symm, by omega⟩
    | vNewtypeVariant name v1 =>
      cases hb : encodeValue v1 with
      | error e => rw [encodeValue, hb] at henc; simp [Bind.bind, Except.bind] at henc
      | ok pv =>
        rw [encodeValue, hb] at henc
        simp [Bind.bind, Except.bind] at henc
        exact ⟨37, _, henc.symm, by omega⟩
    | vTupleVariant name vs =>
      cases hb : encodeList vs with
      | error e => rw [encodeValue, hb] at henc; simp [Bind.bind, Except.bind] at henc
      | ok body =>
        rw [encodeValue, hb] at henc
        simp [Bind.bind, Except.bind] at henc
        exact ⟨37, _, henc.symm, by omega⟩
    | vStructVariant name kvs =>
      cases hb : encodePairs kvs with
      | error e => rw [encodeValue, hb] at henc; simp [Bind.bind, Except.bind, serialize_map] at henc
      | ok body =>
        rw [encodeValue, hb] at henc
        simp [Bind.bind, Except.bind, serialize_map] at henc
        exact ⟨37, _, henc.symm, by omega⟩

theorem sizeOf_pair_snd_lt {kvs : List (List Nat × Value)} {p : List Nat × Value}
    (h : p ∈ kvs) : sizeOf p.2 < sizeOf kvs := by
  have h1 := List.sizeOf_lt_of_mem h
  obtain ⟨a, b⟩ := p
  simp only []
  simp at h1
  omega

/-- Round trip: decoding the encoder's output at the value's declared shape
returns the value and consumes exactly its encoding. -/
theorem decode_encode :
    ∀ (N : Nat) (v : Value) (s : Shape), sizeOf v < N →
      HasShape v s → Lossless v →
      ∀ bs, encodeValue v = .ok bs →
      ∀ fuel, fuelOK fuel s = true →
      ∀ rest, decodeShape fuel s (bs ++ rest) = (.ok v, rest) := by
  intro N
  induction N with
  | zero => intro v s h; omega
  | succ N ih =>
    intro v s hsz hshape hloss bs henc fuel hfuel rest
    cases fuel with
    | zero => simp [fuelOK] at hfuel
    | succ f =>
      rw [decodeShape]
      cases hshape with
      | hBool b =>
        simp only [encodeValue, Except.ok.injEq] at henc
        subst henc
        exact decodeStep_bool_ok b rest
      | hInt w n hw1 hw2 hr1 hr2 =>
        cases hloss with
        | lInt _ _ hu =>
          cases w
          case i128 => exact absurd rfl hw1
          case u128 => exact absurd rfl hw2
          case u64 => exact absurd rfl hu
          all_goals (
            simp only [encodeValue, Except.ok.injEq] at henc
            subst henc
            rw [show (58 :: intDecBytes n ++ CRLF) ++ rest =
              58 :: (intDecBytes n ++ 13 :: 10 :: rest) from by simp [CRLF]]
            exact decodeStep_num_ok (by simp) (by simp) hr1 hr2 rest)
      | hFloat fw f hok =>
        cases hloss with
        | lFloat _ tok =>
          simp only [encodeValue, floatBytes, Except.ok.injEq] at henc
          subst henc
          rw [show (44 :: tok ++ CRLF) ++ rest =
            44 :: (tok ++ 13 :: 10 :: rest) from by simp [CRLF]]
          simp only [floatValOK, Bool.and_eq_true, decide_eq_true_eq,
            List.all_eq_true] at hok
          exact decodeStep_float_ok hok.1 hok.2 rest
      | hChar c =>
        cases hloss with
        | lChar _ hc =>
          simp only [encodeValue, Except.ok.injEq] at henc
          subst henc
          exact decodeStep_char_ok hc rest
      | hStr s1 hlen1 =>
        simp only [encodeValue, Except.ok.injEq] at henc
        subst henc
        exact decodeStep_str_ok hlen1 rest
      | hBytes bs1 hlen1 => cases hloss
      | hUnit =>
        simp only [encodeValue, Except.ok.injEq] at henc
        subst henc
        exact decodeStep_unit_ok rest
      | hNone s1 =>
        simp only [encodeValue, Except.ok.injEq] at henc
        subst henc
        exact decodeStep_option_none_ok s1 rest
      | @hSome v1 s1 h1 =>
        cases hloss with
        | lSome hsn hl1 =>
          rw [encodeValue] at henc
          obtain ⟨b, t, hbs, hb95⟩ :=
            encode_head_ne_null (sizeOf v1 + 1) v1 (by omega) hsn bs henc
          subst hbs
          have hs1 : sizeOf v1 < N := by
            have hsp : sizeOf (Value.vSome v1) = 1 + sizeOf v1 := by simp
            omega
          simp only [fuelOK, fuelOKStep] at hfuel
          exact decodeStep_option_some_ok hb95
            (ih v1 s1 hs1 h1 hl1 (b :: t) henc f hfuel rest)
      | @hSeq vs s1 helem hn =>
        cases hloss with
        | lSeq hle =>
          cases hb : encodeList vs with
          | error e =>
            rw [encodeValue, hb] at henc
            simp [Bind.bind, Except.bind] at henc
          | ok body =>
            rw [encodeValue, hb] at henc
            simp only [Bind.bind, Except.bind, Except.ok.injEq] at henc
            subst henc
            rw [show (serialize_seq_header (some vs.length) ++ body) ++ rest =
              42 :: (natDec vs.length ++ 13 :: 10 :: (body ++ rest)) from by
                simp [serialize_seq_header, CRLF]]
            simp only [fuelOK, fuelOKStep] at hfuel
            have hsp : sizeOf (Value.vSeq vs) = 1 + sizeOf vs := by simp
            exact decodeStep_seq_ok hn hb (fun v0 hv0 bsv r he0 =>
              ih v0 s1 (by have := List.sizeOf_lt_of_mem hv0; omega)
                (helem v0 hv0) (hle v0 hv0) bsv he0 f hfuel r)
      | @hTuple vs ss hlen12 hzip hn =>
        cases hloss with
        | lTuple hle =>
          cases hb : encodeList vs with
          | error e =>
            rw [encodeValue, hb] at henc
            simp [Bind.bind, Except.bind] at henc
          | ok body =>
            rw [encodeValue, hb] at henc
            simp only [Bind.bind, Except.bind, Except.ok.injEq] at henc
            subst henc
            rw [show (serialize_seq_header (some vs.length) ++ body) ++ rest =
              42 :: (natDec vs.length ++ 13 :: 10 :: (body ++ rest)) from by
                simp [serialize_seq_header, CRLF]]
            simp only [fuelOK, fuelOKStep, List.all_eq_true] at hfuel
            have hsp : sizeOf (Value.vTuple vs) = 1 + sizeOf vs := by simp
            exact decodeStep_tuple_ok hlen12 hn hb (fun p hp bsv r he0 =>
              ih p.1 p.2
                (by
                  have hm := (List.of_mem_zip hp).1
                  have := List.sizeOf_lt_of_mem hm
                  omega)
                (hzip p hp) (hle p.1 (List.of_mem_zip hp).1) bsv he0 f
                (hfuel p.2 (List.of_mem_zip hp).2) r)
      | @hMap kvs s1 hkl hsh hn hnd =>
        cases hloss with
        | lMap hle =>
          cases hb : encodePairs kvs with
          | error e =>
            rw [encodeValue, hb] at henc
            simp [Bind.bind, Except.bind, serialize_map] at henc
          | ok body =>
            rw [encodeValue, hb] at henc
            simp only [serialize_map, Bind.bind, Except.bind, Except.ok.injEq] at henc
            subst henc
            rw [show ((37 :: natDec kvs.length ++ CRLF) ++ body) ++ rest =
              37 :: (natDec kvs.length ++ 13 :: 10 :: (body ++ rest)) from by
                simp [CRLF]]
            simp only [fuelOK, fuelOKStep] at hfuel
            have hsp : sizeOf (Value.vMap kvs) = 1 + sizeOf kvs := by simp
            exact decodeStep_map_ok hn hkl hb (fun p hp bsv r he0 =>
              ih p.2 s1
                (by have := sizeOf_pair_snd_lt hp; omega)
                (hsh p hp) (hle p hp) bsv he0 f hfuel r)
      | @hStruct kvs fields hlen12 hnm hkl hsh hn hnd =>
        cases hloss with
        | lStruct hle =>
          cases hb : encodePairs kvs with
          | error e =>
            rw [encodeValue, hb] at henc
            simp [Bind.bind, Except.bind, serialize_map] at henc
          | ok body =>
            rw [encodeValue, hb] at henc
            simp only [serialize_map, Bind.bind, Except.bind, Except.ok.injEq] at henc
            subst henc
            rw [show ((37 :: natDec kvs.length ++ CRLF) ++ body) ++ rest =
              37 :: (natDec kvs.length ++ 13 :: 10 :: (body ++ rest)) from by
                simp [CRLF]]
            simp only [fuelOK, fuelOKStep, List.all_eq_true] at hfuel
            have hsp : sizeOf (Value.vStruct kvs) = 1 + sizeOf kvs := by simp
            exact decodeStep_struct_ok hlen12 hn hnm hkl hnd hb (fun p hp bsv r he0 =>
              ih p.1.2 p.2.2
                (by
                  have hm := (List.of_mem_zip hp).1
                  have := sizeOf_pair_snd_lt hm
                  omega)
                (hsh p hp) (hle p.1 (List.of_mem_zip hp).1) bsv he0 f
                (hfuel p.2 (List.of_mem_zip hp).2) r)
      | @hUnitVariant name variants hfind hnl =>
        simp only [encodeValue, Except.ok.injEq] at henc
        subst henc
        exact decodeStep_unitVariant_ok hfind hnl rest
      | @hNewtypeVariant name variants ps v1 hfind hnl hv1 =>
        cases hloss with
        | lNewtypeVariant hl1 =>
          cases hb : encodeValue v1 with
          | error e =>
            rw [encodeValue, hb] at henc
            simp [Bind.bind, Except.bind] at henc
          | ok pv =>
            rw [encodeValue, hb] at henc
            simp only [Bind.bind, Except.bind, Except.ok.injEq] at henc
            subst henc
            rw [show (37 :: 49 :: CRLF ++ encBulk name ++ pv) ++ rest =
              37 :: (natDec 1 ++ 13 :: 10 :: (36 :: (natDec name.length ++ 13 :: 10 ::
                (name ++ 13 :: 10 :: (pv ++ rest))))) from by
                simp [CRLF, encBulk, natDec, natDecGo]]
            simp only [fuelOK, fuelOKStep, List.all_eq_true] at hfuel
            have hfmem := hfuel (name, VariantKind.newtypeK ps) (assocFind_mem hfind)
            have hsp : sizeOf (Value.vNewtypeVariant name v1) =
                1 + sizeOf name + sizeOf v1 := by simp
            exact decodeStep_newtypeVariant_ok hfind hnl
              (ih v1 ps (by omega) hv1 hl1 pv hb f hfmem rest)
      | @hTupleVariant name variants pss vs hfind hnl hlen12 hzip hn =>
        cases hloss with
        | lTupleVariant hle =>
          cases hb : encodeList vs with
          | error e =>
            rw [encodeValue, hb] at henc
            simp [Bind.bind, Except.bind] at henc
          | ok body =>
            rw [encodeValue, hb] at henc
            simp only [Bind.bind, Except.bind, Except.ok.injEq] at henc
            subst henc
            rw [show (37 :: 49 :: CRLF ++ encBulk name ++
                serialize_seq_header (some vs.length) ++ body) ++ rest =
              37 :: (natDec 1 ++ 13 :: 10 :: (36 :: (natDec name.length ++ 13 :: 10 ::
                (name ++ 13 :: 10 :: (42 :: (natDec vs.length ++ 13 :: 10 ::
                  (body ++ rest))))))) from by
                simp [CRLF, encBulk, serialize_seq_header, natDec, natDecGo]]
            simp only [fuelOK, fuelOKStep, List.all_eq_true] at hfuel
            have hfmem := hfuel (name, VariantKind.tupleK pss) (assocFind_mem hfind)
            simp only [List.all_eq_true] at hfmem
            have hsp : sizeOf (Value.vTupleVariant name vs) =
                1 + sizeOf name + sizeOf vs := by simp
            exact decodeStep_tupleVariant_ok hfind hnl hlen12 hn hb (fun p hp bsv r he0 =>
              ih p.1 p.2
                (by
                  have hm := (List.of_mem_zip hp).1
                  have := List.sizeOf_lt_of_mem hm
                  omega)
                (hzip p hp) (hle p.1 (List.of_mem_zip hp).1) bsv he0 f
                (hfmem p.2 (List.of_mem_zip hp).2) r)
      | @hStructVariant name variants pfs kvs hfind hnl hlen12 hnm hkl hsh hn hnd =>
        cases hloss with
        | lStructVariant hle =>
          cases hb : encodePairs kvs with
          | error e =>
            rw [encodeValue, hb] at henc
            simp [Bind.bind, Except.bind, serialize_map] at henc
          | ok body =>
            rw [encodeValue, hb] at henc
            simp only [serialize_map, Bind.bind, Except.bind, Except.ok.injEq] at henc
            subst henc
            rw [show (37 :: 49 :: CRLF ++ encBulk name ++
                (37 :: natDec kvs.length ++ CRLF) ++ body) ++ rest =
              37 :: (natDec 1 ++ 13 :: 10 :: (36 :: (natDec name.length ++ 13 :: 10 ::
                (name ++ 13 :: 10 :: (37 :: (natDec kvs.length ++ 13 :: 10 ::
                  (body ++ rest))))))) from by
                simp [CRLF, encBulk, natDec, natDecGo]]
            simp only [fuelOK, fuelOKStep, List.all_eq_true] at hfuel
            have hfmem := hfuel (name, VariantKind.structK pfs) (assocFind_mem hfind)
            simp only [List.all_eq_true] at hfmem
            have hsp : sizeOf (Value.vStructVariant name kvs) =
                1 + sizeOf name + sizeOf kvs := by simp
            exact decodeStep_structVariant_ok hfind hnl hlen12 hn hnm hkl hnd hb
              (fun p hp bsv r he0 =>
                ih p.1.2 p.2.2
                  (by
                    have hm := (List.of_mem_zip hp).1
                    have := sizeOf_pair_snd_lt hm
                    omega)
                  (hsh p hp) (hle p.1 (List.of_mem_zip hp).1) bsv he0 f
                  (hfmem p.2 (List.of_mem_zip hp).2) r)

/-!
## Decoding at exhausted input
-/

/-- Every decode entry point that inspects the input reports `UnexpectedEnd`
when the input is empty, leaving the (empty) cursor in place. -/
theorem decode_empty :
    ∀ (fuel : Nat) (s : Shape), fuelOK fuel s = true → headSupported s = true →
      decodeShape fuel s [] = (.error (.err .UnexpectedEnd), []) := by
  intro fuel
  induction fuel with
  | zero => intro s hf; simp [fuelOK] at hf
  | succ f ih =>
    intro s hf hh
    rw [decodeShape]
    cases s with
    | sBool => rfl
    | sNum w =>
      cases w <;> first
        | rfl
        | (simp [headSupported] at hh)
    | sFloat fw => rfl
    | sChar => rfl
    | sStr => rfl
    | sBytes => simp [headSupported] at hh
    | sUnit => rfl
    | sOption inner =>
      simp only [fuelOK, fuelOKStep] at hf
      simp only [headSupported] at hh
      show (decodeShape f inner >>= fun v => Pure.pure (Value.vSome v)) [] =
        (.error (.err .UnexpectedEnd), [])
      rw [Dec.bind_def, Dec.bind_apply_error (ih inner hf hh)]
    | sSeq elem => rfl
    | sTuple elems => rfl
    | sMap velem => rfl
    | sStruct fields => rfl
    | sEnum variants => rfl

/-!
## The cursor only ever advances
-/

theorem advances_pure {α : Type} (a : α) : Advances (Pure.pure a : Dec α) :=
  fun s => List.suffix_refl s

theorem advances_fail {α : Type} (e : Err) : Advances (Dec.fail e : Dec α) :=
  fun s => List.suffix_refl s

theorem advances_bind {α β : Type} {m : Dec α} {f : α → Dec β}
    (hm : Advances m) (hf : ∀ a, Advances (f a)) : Advances (m >>= f) := by
  intro s
  show List.IsSuffix ((Dec.bind m f) s).2 s
  unfold Dec.bind
  cases hms : m s with
  | mk r s1 =>
    have h1 : List.IsSuffix s1 s := by
      have h2 := hm s
      rw [hms] at h2
      exact h2
    cases r with
    | ok a =>
      simp only []
      exact (hf a s1).trans h1
    | error e =>
      simpa using h1

theorem advances_next_byte : Advances next_byte := by
  intro s
  cases s with
  | nil => exact List.suffix_refl []
  | cons b t => exact List.suffix_cons b t

theorem advances_peek_byte : Advances peek_byte := by
  intro s
  cases s with
  | nil => exact List.suffix_refl []
  | cons b t => exact List.suffix_refl (b :: t)

theorem advances_expect_byte (expected : Nat) : Advances (expect_byte expected) := by
  unfold expect_byte
  apply advances_bind advances_next_byte
  intro a
  by_cases h : a = expected
  · simp only [h, if_pos rfl]
    exact advances_pure ()
  · simp only [if_neg h]
    exact advances_fail _

theorem advances_expect_crlf : Advances expect_crlf := by
  intro s
  show List.IsSuffix (expect_crlf s).2 s
  unfold expect_crlf
  split
  · rename_i rest
    exact (List.suffix_cons 10 rest).trans (List.suffix_cons 13 _)
  · exact List.suffix_refl _
  · exact List.suffix_refl _

theorem advances_expect_length : Advances expect_length := by
  intro s
  unfold expect_length
  cases hpos : position (fun b => !(isDigitB b)) s with
  | none => exact List.suffix_refl s
  | some i =>
    simp only []
    split <;> try split
    all_goals exact List.drop_suffix i s

theorem advances_parse_simple_string : Advances parse_simple_string := by
  intro s
  unfold parse_simple_string
  cases hidx : crlfIdx? s with
  | none => exact List.suffix_refl s
  | some i =>
    simp only []
    split
    · exact List.drop_suffix i s
    · have hrun : Advances (expect_crlf >>= fun _ => (Pure.pure (s.take i) : Dec (List Nat))) :=
        advances_bind advances_expect_crlf (fun _ => advances_pure _)
      exact (hrun (s.drop i)).trans (List.drop_suffix i s)

theorem advances_bulk_take (n : Nat) : Advances (bulk_take n) := by
  intro s
  unfold bulk_take
  split
  · exact List.drop_suffix n s
  · exact List.suffix_refl s

theorem advances_parse_bulk_string : Advances parse_bulk_string := by
  intro s
  unfold parse_bulk_string
  split
  · exact List.drop_suffix 4 s
  · exact (advances_bind advances_expect_length (fun len =>
      advances_bind advances_expect_crlf (fun _ =>
        advances_bind (advances_bulk_take len) (fun data =>
          advances_bind advances_expect_crlf (fun _ => advances_pure data))))) s

theorem advances_parse_string : Advances parse_string := by
  unfold parse_string
  apply advances_bind advances_next_byte
  intro a
  cases prefixToKind? a with
  | none => exact advances_fail _
  | some k =>
    cases k
    all_goals first
      | exact advances_parse_simple_string
      | exact advances_parse_bulk_string
      | exact advances_fail _

theorem advances_scan_numeric : Advances scan_numeric := by
  intro s
  unfold scan_numeric
  cases hpos : position (fun b => !(isNumericChar b)) s with
  | none => exact List.suffix_refl s
  | some i => exact List.drop_suffix i s

theorem advances_parse_number_with {α : Type} (fromStr : List Nat → Option α) :
    Advances (parse_number_with fromStr) := by
  unfold parse_number_with
  apply advances_bind advances_next_byte
  intro a
  cases prefixToKind? a with
  | none => exact advances_fail _
  | some k =>
    simp only []
    split
    · apply advances_bind advances_scan_numeric
      intro tok
      cases fromStr tok with
      | none => exact advances_fail _
      | some v =>
        exact advances_bind advances_expect_crlf (fun _ => advances_pure v)
    · exact advances_fail _

theorem advances_parse_number (w : NumWidth) : Advances (parse_number w) :=
  advances_parse_number_with (rustIntFromStr w)

theorem advances_parse_float (fw : FloatWidth) : Advances (parse_float fw) :=
  advances_parse_number_with rustFloatFromStr

theorem advances_seqHeader : Advances seqHeader := by
  unfold seqHeader
  apply advances_bind advances_peek_byte
  intro a
  cases prefixToKind? a with
  | none => exact advances_fail _
  | some k =>
    simp only []
    split
    · exact advances_bind (advances_expect_byte a) (fun _ =>
        advances_bind advances_expect_length (fun len =>
          advances_bind advances_expect_crlf (fun _ => advances_pure len)))
    · exact advances_fail _

theorem advances_mapHeader : Advances mapHeader := by
  unfold mapHeader
  apply advances_bind advances_peek_byte
  intro a
  cases prefixToKind? a with
  | none => exact advances_fail _
  | some k =>
    simp only []
    split
    · exact advances_bind (advances_expect_byte a) (fun _ =>
        advances_bind advances_expect_length (fun len =>
          advances_bind advances_expect_crlf (fun _ => advances_pure len)))
    · exact advances_fail _

theorem advances_decodeCount {d : Dec Value} (hd : Advances d) :
    ∀ n, Advances (decodeCount d n) := by
  intro n
  induction n with
  | zero => exact advances_pure []
  | succ m ih =>
    rw [decodeCount]
    exact advances_bind hd (fun v => advances_bind ih (fun vs => advances_pure (v :: vs)))

theorem advances_decodeTupleElems :
    ∀ (ds : List (Dec Value)), (∀ d ∈ ds, Advances d) →
      ∀ n, Advances (decodeTupleElems ds n) := by
  intro ds
  induction ds with
  | nil => intro _ n; cases n <;> exact advances_pure []
  | cons d t ih =>
    intro hall n
    cases n with
    | zero => exact advances_fail _
    | succ m =>
      rw [decodeTupleElems]
      exact advances_bind (hall d (by simp)) (fun v =>
        advances_bind (ih (fun x hx => hall x (by simp [hx])) m)
          (fun vs => advances_pure (v :: vs)))

theorem advances_decodeMapPairs {d : Dec Value} (hd : Advances d) :
    ∀ n, Advances (decodeMapPairs d n) := by
  intro n
  induction n with
  | zero => exact advances_pure []
  | succ m ih =>
    rw [decodeMapPairs]
    exact advances_bind advances_parse_string (fun k =>
      advances_bind hd (fun v =>
        advances_bind ih (fun rest => advances_pure ((k, v) :: rest))))

theorem advances_decodeStructPairs {fds : List (List Nat × Dec Value)}
    (hall : ∀ p ∈ fds, Advances p.2) :
    ∀ n seen, Advances (decodeStructPairs fds n seen) := by
  intro n
  induction n with
  | zero => intro seen s; exact List.suffix_refl s
  | succ m ih =>
    intro seen
    rw [decodeStructPairs]
    apply advances_bind advances_parse_string
    intro k
    cases hfind : assocFind k fds with
    | none => exact advances_fail _
    | some d =>
      simp only []
      split
      · exact advances_fail _
      · exact advances_bind
          (by
            have hm := assocFind_mem hfind
            exact hall (k, d) hm)
          (fun v => ih (seen ++ [(k, v)]))

theorem advances_decodeStep {rec : Shape → Dec Value}
    (hrec : ∀ s1, Advances (rec s1)) : ∀ s1, Advances (decodeStep rec s1) := by
  intro s1
  cases s1 with
  | sBool =>
    simp only [decodeStep]
    exact advances_bind (advances_expect_byte 35) (fun _ =>
      advances_bind advances_next_byte (fun b =>
        advances_bind
          (by
            match b with
            | 116 => exact advances_pure true
            | 102 => exact advances_pure false
            | 0 => exact advances_fail _
            | v + 1 =>
              show Advances (match v + 1 with
                | 116 => (Pure.pure true : Dec Bool)
                | 102 => Pure.pure false
                | b => Dec.fail (.UnexpectedByte "One of `t` or `f`" b))
              split
              · exact advances_pure true
              · exact advances_pure false
              · exact advances_fail _)
          (fun v => advances_bind advances_expect_crlf (fun _ => advances_pure _))))
  | sNum w =>
    cases w <;> simp only [decodeStep] <;>
      first
        | exact advances_fail _
        | exact advances_bind (advances_parse_number _) (fun n => advances_pure _)
  | sFloat fw =>
    simp only [decodeStep]
    exact advances_bind (advances_parse_float fw) (fun f => advances_pure _)
  | sChar =>
    simp only [decodeStep]
    apply advances_bind advances_parse_string
    intro bs
    split
    · exact advances_fail _
    · match bs with
      | [] => exact advances_fail _
      | b :: t => exact advances_pure _
  | sStr =>
    simp only [decodeStep]
    exact advances_bind advances_parse_string (fun bs => advances_pure _)
  | sBytes => intro s; exact List.suffix_refl s
  | sUnit =>
    simp only [decodeStep]
    exact advances_bind (advances_expect_byte 95) (fun _ =>
      advances_bind advances_expect_crlf (fun _ => advances_pure _))
  | sOption inner =>
    intro s
    simp only [decodeStep]
    split
    · exact (advances_bind (advances_expect_byte 95) (fun _ =>
        advances_bind advances_expect_crlf (fun _ => advances_pure _)) : Advances _) s
    · exact (advances_bind (hrec inner) (fun v => advances_pure _) : Advances _) s
  | sSeq elem =>
    simp only [decodeStep]
    exact advances_bind advances_seqHeader (fun len =>
      advances_bind (advances_decodeCount (hrec elem) len) (fun vs => advances_pure _))
  | sTuple elems =>
    simp only [decodeStep]
    exact advances_bind advances_seqHeader (fun len =>
      advances_bind
        (advances_decodeTupleElems (elems.map rec)
          (by
            intro d hd
            simp only [List.mem_map] at hd
            obtain ⟨e, _, rfl⟩ := hd
            exact hrec e) len)
        (fun vs => advances_pure _))
  | sMap velem =>
    simp only [decodeStep]
    exact advances_bind advances_mapHeader (fun len =>
      advances_bind (advances_decodeMapPairs (hrec velem) len) (fun kvs => advances_pure _))
  | sStruct fields =>
    simp only [decodeStep]
    exact advances_bind advances_mapHeader (fun len =>
      advances_bind
        (advances_decodeStructPairs
          (by
            intro p hp
            simp only [List.mem_map] at hp
            obtain ⟨q, _, rfl⟩ := hp
            exact hrec q.2) len [])
        (fun kvs => advances_pure _))
  | sEnum variants =>
    simp only [decodeStep]
    apply advances_bind advances_peek_byte
    intro a
    cases prefixToKind? a with
    | none => exact advances_fail _
    | some k =>
      simp only []
      split
      · apply advances_bind advances_parse_string
        intro name
        cases assocFind name variants with
        | none => exact advances_fail _
        | some kind =>
          cases kind
          · exact advances_pure _
          · exact advances_fail _
          · exact advances_fail _
          · exact advances_fail _
      · split
        · apply advances_bind (advances_expect_byte a)
          intro _
          apply advances_bind advances_expect_length
          intro len
          by_cases hlen : len ≠ 1
          · simp only [if_pos hlen]
            exact advances_fail _
          · simp only [if_neg hlen]
            apply advances_bind advances_expect_crlf
            intro _
            apply advances_bind advances_parse_string
            intro name
            cases assocFind name variants with
            | none => exact advances_fail _
            | some kind =>
              cases kind with
              | unitK => exact advances_fail _
              | newtypeK ps =>
                exact advances_bind (hrec ps) (fun v => advances_pure _)
              | tupleK pss =>
                exact advances_bind advances_seqHeader (fun len2 =>
                  advances_bind
                    (advances_decodeTupleElems (pss.map rec)
                      (by
                        intro d hd
                        simp only [List.mem_map] at hd
                        obtain ⟨e, _, rfl⟩ := hd
                        exact hrec e) len2)
                    (fun vs => advances_pure _))
              | structK pfs =>
                exact advances_bind advances_mapHeader (fun len2 =>
                  advances_bind
                    (advances_decodeStructPairs
                      (by
                        intro p hp
                        simp only [List.mem_map] at hp
                        obtain ⟨q, _, rfl⟩ := hp
                        exact hrec q.2) len2 [])
                    (fun kvs => advances_pure _))
        · exact advances_fail _

theorem advances_decodeShape : ∀ (fuel : Nat) (s : Shape), Advances (decodeShape fuel s) := by
  intro fuel
  induction fuel with
  | zero => intro s; exact advances_fail _
  | succ f ih => exact advances_decodeStep ih

/-!
## Totality of encoding on serde-supported values
-/

theorem encodeList_total {vs : List Value}
    (h : ∀ v ∈ vs, ∃ bs, encodeValue v = .ok bs) :
    ∃ bs, encodeList vs = .ok bs := by
  induction vs with
  | nil => exact ⟨[], rfl⟩
  | cons v t ih =>
    obtain ⟨a, ha⟩ := h v (by simp)
    obtain ⟨b, hb⟩ := ih (fun x hx => h x (by simp [hx]))
    exact ⟨a ++ b, by rw [encodeList, ha, hb]; rfl⟩

theorem encodePairs_total {kvs : List (List Nat × Value)}
    (h : ∀ p ∈ kvs, ∃ bs, encodeValue p.2 = .ok bs) :
    ∃ bs, encodePairs kvs = .ok bs := by
  induction kvs with
  | nil => exact ⟨[], rfl⟩
  | cons p t ih =>
    obtain ⟨k, v⟩ := p
    obtain ⟨a, ha⟩ := h (k, v) (by simp)
    obtain ⟨b, hb⟩ := ih (fun x hx => h x (by simp [hx]))
    exact ⟨encBulk k ++ a ++ b, by rw [encodePairs, ha, hb]; rfl⟩

theorem encode_total :
    ∀ (N : Nat) (v : Value), sizeOf v < N → NoI128 v →
      ∃ bs, encodeValue v = .ok bs := by
  intro N
  induction N with
  | zero => intro v h; omega
  | succ N ih =>
    intro v hsz hv
    cases v with
    | vBool b => exact ⟨_, rfl⟩
    | vFloat fw f => exact ⟨_, rfl⟩
    | vInt w n =>
      cases hv with
      | nInt _ _ h1 h2 =>
        cases w
        case i128 => exact absurd rfl h1
        case u128 => exact absurd rfl h2
        all_goals exact ⟨_, rfl⟩
    | vChar c => exact ⟨_, rfl⟩
    | vStr bs => exact ⟨_, rfl⟩
    | vBytes bs => exact ⟨_, rfl⟩
    | vUnit => exact ⟨_, rfl⟩
    | vNone => exact ⟨_, rfl⟩
    | vSome v1 =>
      cases hv with
      | nSome h1 =>
        have hs1 : sizeOf v1 < N := by
          have hsp : sizeOf (Value.vSome v1) = 1 + sizeOf v1 := by simp
          omega
        obtain ⟨bs, hbs⟩ := ih v1 hs1 h1
        exact ⟨bs, by rw [encodeValue]; exact hbs⟩
    | vSeq vs =>
      cases hv with
      | nSeq hall =>
        have hsp : sizeOf (Value.vSeq vs) = 1 + sizeOf vs := by simp
        obtain ⟨body, hb⟩ := encodeList_total (fun x hx =>
          ih x (by have := List.sizeOf_lt_of_mem hx; omega) (hall x hx))
        exact ⟨_, by rw [encodeValue, hb]; rfl⟩
    | vTuple vs =>
      cases hv with
      | nTuple hall =>
        have hsp : sizeOf (Value.vTuple vs) = 1 + sizeOf vs := by simp
        obtain ⟨body, hb⟩ := encodeList_total (fun x hx =>
          ih x (by have := List.sizeOf_lt_of_mem hx; omega) (hall x hx))
        exact ⟨_, by rw [encodeValue, hb]; rfl⟩
    | vMap kvs =>
      cases hv with
      | nMap hall =>
        have hsp : sizeOf (Value.vMap kvs) = 1 + sizeOf kvs := by simp
        obtain ⟨body, hb⟩ := encodePairs_total (fun x hx =>
          ih x.2 (by have := sizeOf_pair_snd_lt hx; omega) (hall x hx))
        exact ⟨_, by rw [encodeValue, hb]; rfl⟩
    | vStruct kvs =>
      cases hv with
      | nStruct hall =>
        have hsp : sizeOf (Value.vStruct kvs) = 1 + sizeOf kvs := by simp
        obtain ⟨body, hb⟩ := encodePairs_total (fun x hx =>
          ih x.2 (by have := sizeOf_pair_snd_lt hx; omega) (hall x hx))
        exact ⟨_, by rw [encodeValue, hb]; rfl⟩
    | vUnitVariant name => exact ⟨_, rfl⟩
    | vNewtypeVariant name v1 =>
      cases hv with
      | nNewtypeVariant h1 =>
        have hs1 : sizeOf v1 < N := by
          have hsp : sizeOf (Value.vNewtypeVariant name v1) =
              1 + sizeOf name + sizeOf v1 := by simp
          omega
        obtain ⟨pv, hpv⟩ := ih v1 hs1 h1
        exact ⟨_, by rw [encodeValue, hpv]; rfl⟩
    | vTupleVariant name vs =>
      cases hv with
      | nTupleVariant hall =>
        have hsp : sizeOf (Value.vTupleVariant name vs) =
            1 + sizeOf name + sizeOf vs := by simp
        obtain ⟨body, hb⟩ := encodeList_total (fun x hx =>
          ih x (by have := List.sizeOf_lt_of_mem hx; omega) (hall x hx))
        exact ⟨_, by rw [encodeValue, hb]; rfl⟩
    | vStructVariant name kvs =>
      cases hv with
      | nStructVariant hall =>
        have hsp : sizeOf (Value.vStructVariant name kvs) =
            1 + sizeOf name + sizeOf kvs := by simp
        obtain ⟨body, hb⟩ := encodePairs_total (fun x hx =>
          ih x.2 (by have := sizeOf_pair_snd_lt hx; omega) (hall x hx))
        exact ⟨_, by rw [encodeValue, hb]; rfl⟩

/-!
## Truncated sequences
-/

theorem decodeCount_short {d : Dec Value} :
    ∀ (vs : List Value) (n : Nat) (body : List Nat),
      vs.length < n →
      encodeList vs = .ok body →
      (∀ v ∈ vs, ∀ bsv r, encodeValue v = .ok bsv → d (bsv ++ r) = (.ok v, r)) →
      d [] = (.error (.err .UnexpectedEnd), []) →
      decodeCount d n body = (.error (.err .UnexpectedEnd), []) := by
  intro vs
  induction vs with
  | nil =>
    intro n body hlt henc _ hempty
    simp [encodeList] at henc
    subst henc
    match n, hlt with
    | m + 1, _ =>
      rw [decodeCount]
      rw [Dec.bind_def, Dec.bind_apply_error hempty]
  | cons v t ih =>
    intro n body hlt henc hel hempty
    obtain ⟨a, b, hv, ht, rfl⟩ := encodeList_cons_inv henc
    match n, hlt with
    | m + 1, hlt =>
      rw [decodeCount]
      rw [Dec.bind_def, Dec.bind_apply_ok (hel v (by simp) a b hv)]
      rw [Dec.bind_def,
        Dec.bind_apply_error (ih m b (by simpa using hlt) ht
          (fun x hx => hel x (by simp [hx])) hempty)]

/-!
## UTF-8 lengths of chars
-/

theorem charUtf8_multibyte {c : Char} (hc : 128 ≤ c.toNat) :
    1 < (charUtf8 c).length := by
  unfold charUtf8
  rw [if_neg (by omega)]
  split
  · simp
  · split <;> simp

theorem charUtf8_len_le {c : Char} : (charUtf8 c).length ≤ 4 := by
  unfold charUtf8
  dsimp only
  split
  · simp
  · split
    · simp
    · split <;> simp

theorem parse_bulk_string_null (rest : List Nat) :
    parse_bulk_string (45 :: 49 :: 13 :: 10 :: rest) = (.ok [], rest) := by
  unfold parse_bulk_string
  rw [if_pos (by simp [List.isPrefixOf])]
  rfl

theorem parse_string_null (rest : List Nat) :
    parse_string (36 :: 45 :: 49 :: 13 :: 10 :: rest) = (.ok [], rest) := by
  unfold parse_string
  rw [Dec.bind_def,
    Dec.bind_apply_ok (show next_byte (36 :: (45 :: 49 :: 13 :: 10 :: rest)) =
      (.ok 36, 45 :: 49 :: 13 :: 10 :: rest) from rfl)]
  exact parse_bulk_string_null rest

/-!
## The claims
-/

/-- C1 (counterexample to the claim as stated): two representable values
whose shapes have none of the claim's listed lossy cases (not Options, not
null bulk strings, not u64/usize) encode fine but fail to decode back.
The char `é` (U+00E9): `serialize_char` emits the two-byte UTF-8 payload
`$2\r\n\xc3\xa9\r\n` and `deserialize_char` rejects any payload longer
than one byte.  And `f64::INFINITY`: `serialize_f64` emits `,inf\r\n`,
whose decode fails because `i` is not in `VALID_NUMERIC_CHARS` — the
numeric scan yields the empty token, which no float parses (the error
reports the `char` default `'\0'`, per `unwrap_or_default`). -/
theorem claim_C1_roundtrip_cex :
    HasShape (.vChar (Char.ofNat 233)) .sChar ∧
    encodeValue (.vChar (Char.ofNat 233)) = .ok [36, 50, 13, 10, 195, 169, 13, 10] ∧
    decodeShape 1 .sChar [36, 50, 13, 10, 195, 169, 13, 10] =
      (.error (.err (.DeserializeError "Expected a single character string")), []) ∧
    HasShape (.vFloat .f64 .inf) (.sFloat .f64) ∧
    encodeValue (.vFloat .f64 .inf) = .ok [44, 105, 110, 102, 13, 10] ∧
    decodeShape 1 (.sFloat .f64) [44, 105, 110, 102, 13, 10] =
      (.error (.err (.UnexpectedByte "A valid integer string" 0)),
        [105, 110, 102, 13, 10]) :=
  ⟨HasShape.hChar _, rfl, rfl, HasShape.hFloat .f64 .inf rfl, rfl, rfl⟩

/-- C1 (amended): for every representable value `v` whose shape has no
lossy case — the claim's own exclusions (the Option-of-unit/`None`
collapse, null bulk strings, u64/usize values) plus the three further
lossy cases the code has (chars with multi-byte UTF-8 encodings,
raw-bytes values, non-finite floats, whose `inf`/`-inf`/`NaN` renderings
fail the numeric scan), all captured by `Lossless` — decoding the bytes
produced by encoding `v`, at `v`'s shape with any sufficient recursion
budget, yields `v` again and consumes the whole input. -/
theorem claim_C1_roundtrip (v : Value) (s : Shape)
    (h1 : HasShape v s) (h2 : Lossless v)
    (bs : List Nat) (henc : to_bytes v = .ok bs)
    (fuel : Nat) (hf : fuelOK fuel s = true) :
    decodeShape fuel s bs = (.ok v, []) := by
  have h := decode_encode (sizeOf v + 1) v s (by omega) h1 h2 bs henc fuel hf []
  simpa using h

/-- C1 witness: the struct `{a: 5i8, b: "hi"}` round-trips through
`%2\r\n$1\r\na\r\n:5\r\n$1\r\nb\r\n$2\r\nhi\r\n`, and the finite
float `1.5f64` round-trips through `,1.5\r\n`. -/
theorem claim_C1_roundtrip_witness :
    (decodeShape 2 (.sStruct [([97], .sNum .i8), ([98], .sStr)])
      [37, 50, 13, 10, 36, 49, 13, 10, 97, 13, 10, 58, 53, 13, 10,
       36, 49, 13, 10, 98, 13, 10, 36, 50, 13, 10, 104, 105, 13, 10] =
      (.ok (.vStruct [([97], .vInt .i8 5), ([98], .vStr [104, 105])]), [])) ∧
    decodeShape 1 (.sFloat .f64) [44, 49, 46, 53, 13, 10] =
      (.ok (.vFloat .f64 (.finite [49, 46, 53])), []) := by
  refine ⟨?_, claim_C1_roundtrip _ _ (HasShape.hFloat .f64 (.finite [49, 46, 53]) rfl)
    (Lossless.lFloat .f64 [49, 46, 53]) _ rfl 1 rfl⟩
  have h1 : HasShape (.vStruct [([97], .vInt .i8 5), ([98], .vStr [104, 105])])
      (.sStruct [([97], .sNum .i8), ([98], .sStr)]) := by
    refine HasShape.hStruct rfl (by decide) (by decide) ?_ (by decide) (by decide)
    intro p hp
    simp at hp
    rcases hp with rfl | rfl
    · exact HasShape.hInt .i8 5 (by decide) (by decide) (by decide) (by decide)
    · exact HasShape.hStr _ (by decide)
  have h2 : Lossless (Value.vStruct [([97], .vInt .i8 5), ([98], .vStr [104, 105])]) := by
    refine Lossless.lStruct ?_
    intro p hp
    simp at hp
    rcases hp with rfl | rfl
    · exact Lossless.lInt .i8 5 (by decide)
    · exact Lossless.lStr _
  exact claim_C1_roundtrip _ _ h1 h2 _ rfl 2 rfl

/-- C2 (code bug): when a bulk-family token declares a length greater
than the number of bytes remaining after the length's CRLF, decoding does
NOT return `Err(UnexpectedEnd)` — it panics.  `parse_bulk_string`
(de.rs:121) slices `&self.input[..length]` without a bounds check, which
aborts the process on out-of-range `length`; the model's `bulk_take`
mirrors that abort as the distinguished outcome `Fail.panicked`, which is
not an `Error` value at all. -/
theorem claim_C2_truncated_bulk (L : Nat) (bs : List Nat)
    (hL : L ≤ USIZE_MAX) (hshort : bs.length < L) :
    parse_bulk_string (natDec L ++ 13 :: 10 :: bs) = (.error .panicked, bs) ∧
    (Fail.panicked ≠ .err .UnexpectedEnd) := by
  refine ⟨?_, by decide⟩
  unfold parse_bulk_string
  rw [if_neg (by simp [natDec_not_null_lead])]
  rw [Dec.bind_def, Dec.bind_apply_ok (expect_length_natDec hL _)]
  rw [Dec.bind_def,
    Dec.bind_apply_ok (show expect_crlf (13 :: 10 :: bs) = (.ok (), bs) from rfl)]
  rw [Dec.bind_def,
    Dec.bind_apply_error (show bulk_take L bs = (.error .panicked, bs) from by
      unfold bulk_take
      rw [if_neg (by omega)])]

/-- C2 witness: `$5\r\nab` — the bulk token declares 5 payload bytes but
only 2 remain. -/
theorem claim_C2_truncated_bulk_witness :
    parse_bulk_string (natDec 5 ++ 13 :: 10 :: [97, 98]) = (.error .panicked, [97, 98]) ∧
    (Fail.panicked ≠ .err .UnexpectedEnd) :=
  claim_C2_truncated_bulk 5 [97, 98] (by decide) (by decide)

/-- C3 (amended): for every numeric wire token (Integer `:`, Float `,` or
BigNumber `(` tag followed by a run of numeric chars and CRLF), decoding
at a *serde-supported* numeric width — the eight integer widths through
`rustIntFromStr` (first conjunct) and the two float widths through
`rustFloatFromStr` (second conjunct; its `FromStr` accepts the point and
exponent forms the integer widths reject) — succeeds exactly when the
token text parses at that width, and otherwise fails with
`UnexpectedByte` reporting the first source character.  As the claim
says, `(300\r\n` fails at u8 while `(42\r\n` succeeds at every supported
integer width, and a token overflowing i8 fails at i8 — but the claim's
"succeeds for target i128" is wrong: the 128-bit widths are unsupported
(`deserialize_i128` is not overridden; the crate's own tests assert
`from_str::<i128>` errors), so the overflow example is corrected to a
64-bit target.  The last three conjuncts exercise the float targets:
`:1.5\r\n` fails at i64 yet succeeds at f64, and `,2e20\r\n` (a token
from the crate's own tests) succeeds at f32. -/
theorem claim_C3_numeric :
    (∀ (w : NumWidth) (tg : Nat) (k : RespDataKind) (tok rest : List Nat),
      prefixToKind? tg = some k → (k = .Integer ∨ k = .Float ∨ k = .BigNumber) →
      (∀ b ∈ tok, isNumericChar b = true) →
      parse_number w (tg :: (tok ++ 13 :: 10 :: rest)) =
        (match rustIntFromStr w tok with
         | some v => (.ok v, rest)
         | none => (.error (.err (.UnexpectedByte "A valid integer string" (tok.headD 0))),
             13 :: 10 :: rest))) ∧
    (∀ (fw : FloatWidth) (tg : Nat) (k : RespDataKind) (tok rest : List Nat),
      prefixToKind? tg = some k → (k = .Integer ∨ k = .Float ∨ k = .BigNumber) →
      (∀ b ∈ tok, isNumericChar b = true) →
      parse_float fw (tg :: (tok ++ 13 :: 10 :: rest)) =
        (match rustFloatFromStr tok with
         | some v => (.ok v, rest)
         | none => (.error (.err (.UnexpectedByte "A valid integer string" (tok.headD 0))),
             13 :: 10 :: rest))) ∧
    decodeShape 1 (.sNum .u8) [40, 51, 48, 48, 13, 10] =
      (.error (.err (.UnexpectedByte "A valid integer string" 51)), [13, 10]) ∧
    (∀ w : NumWidth, w ≠ .i128 → w ≠ .u128 →
      decodeShape 1 (.sNum w) [40, 52, 50, 13, 10] = (.ok (.vInt w 42), [])) ∧
    decodeShape 1 (.sNum .i8) [40, 50, 48, 48, 13, 10] =
      (.error (.err (.UnexpectedByte "A valid integer string" 50)), [13, 10]) ∧
    decodeShape 1 (.sNum .i64) [40, 50, 48, 48, 13, 10] = (.ok (.vInt .i64 200), []) ∧
    decodeShape 1 (.sNum .i128) [40, 52, 50, 13, 10] =
      (.error (.err (.DeserializeError "i128 is not supported")), [40, 52, 50, 13, 10]) ∧
    decodeShape 1 (.sNum .i64) [58, 49, 46, 53, 13, 10] =
      (.error (.err (.UnexpectedByte "A valid integer string" 49)), [13, 10]) ∧
    decodeShape 1 (.sFloat .f64) [58, 49, 46, 53, 13, 10] =
      (.ok (.vFloat .f64 (.finite [49, 46, 53])), []) ∧
    decodeShape 1 (.sFloat .f32) [44, 50, 101, 50, 48, 13, 10] =
      (.ok (.vFloat .f32 (.finite (50 :: List.replicate 20 48))), []) :=
  ⟨fun w tg k tok rest hk hnum htok => parse_number_token hk hnum htok rest,
   fun fw tg k tok rest hk hnum htok => parse_float_token hk hnum htok rest,
   rfl,
   fun w h1 h2 => by
     cases w <;> first
       | exact absurd rfl h1
       | exact absurd rfl h2
       | rfl,
   rfl, rfl, rfl, rfl, rfl, rfl⟩

/-- C3 (counterexample to the claim as stated): the claim says a numeric
token "succeeds at any integer width that can hold 42" and that an
i8-overflowing token "succeeds when the target is i128" — but the 128-bit
widths are not supported at all: serde's default `deserialize_i128` (not
overridden in de.rs) rejects them up front, and the crate's own tests
assert `from_str::<i128>` errors.  Even the in-range token `(42\r\n`
fails at target i128, while succeeding at i64. -/
theorem claim_C3_numeric_cex :
    decodeShape 1 (.sNum .i128) [40, 52, 50, 13, 10] =
      (.error (.err (.DeserializeError "i128 is not supported")), [40, 52, 50, 13, 10]) ∧
    decodeShape 1 (.sNum .u128) [40, 52, 50, 13, 10] =
      (.error (.err (.DeserializeError "u128 is not supported")), [40, 52, 50, 13, 10]) ∧
    decodeShape 1 (.sNum .i64) [40, 52, 50, 13, 10] = (.ok (.vInt .i64 42), []) :=
  ⟨rfl, rfl, rfl⟩

/-- C3 witness: the general token characterizations at concrete inputs —
`(300\r\n` at target u8 (the token does not parse, so the decode fails
with `UnexpectedByte` reporting the first source character `3`) and
`:1.5\r\n` at target f64 (the same tag feeds the float `FromStr`, which
accepts the point form). -/
theorem claim_C3_numeric_witness :
    (parse_number .u8 (40 :: ([51, 48, 48] ++ 13 :: 10 :: [])) =
      (match rustIntFromStr .u8 [51, 48, 48] with
       | some v => (.ok v, ([] : List Nat))
       | none => (.error (.err (.UnexpectedByte "A valid integer string"
           ([51, 48, 48].headD 0))), 13 :: 10 :: ([] : List Nat)))) ∧
    parse_float .f64 (58 :: ([49, 46, 53] ++ 13 :: 10 :: [])) =
      (match rustFloatFromStr [49, 46, 53] with
       | some v => (.ok v, ([] : List Nat))
       | none => (.error (.err (.UnexpectedByte "A valid integer string"
           ([49, 46, 53].headD 0))), 13 :: 10 :: ([] : List Nat))) :=
  ⟨claim_C3_numeric.1 .u8 40 .BigNumber [51, 48, 48] [] rfl
    (Or.inr (Or.inr rfl)) (by decide),
   claim_C3_numeric.2.1 .f64 58 .Integer [49, 46, 53] [] rfl
    (Or.inl rfl) (by decide)⟩

/-- C4: every u64 value (`NumWidth.u64`, which also models usize — the
same `serialize_u64` is reached by `serialize_usize` on the crate's 64-bit
targets) encodes as the BigNumber tag `(` followed by the canonical
decimal and CRLF, never as the Integer tag `:`; in particular `42u64`
yields `(42\r\n`. -/
theorem claim_C4_u64_bignumber :
    (∀ n : Nat, to_bytes (.vInt .u64 (n : Int)) =
      .ok (RespDataKind.BigNumber.toPrefixByte :: (natDec n ++ CRLF))) ∧
    (∀ n : Nat, (to_bytes (.vInt .u64 (n : Int))).map List.head? =
      .ok (some RespDataKind.BigNumber.toPrefixByte)) ∧
    RespDataKind.BigNumber.toPrefixByte = 40 ∧
    RespDataKind.Integer.toPrefixByte = 58 ∧
    RespDataKind.BigNumber.toPrefixByte ≠ RespDataKind.Integer.toPrefixByte ∧
    to_bytes (.vInt .u64 42) = .ok [40, 52, 50, 13, 10] :=
  ⟨fun n => rfl, fun n => rfl, rfl, rfl, by decide, rfl⟩

/-- C5 (counterexample to the claim as stated): `to_string` (explicitly
included in the claim) can also fail with `InvalidUtf8` — a raw-bytes
value containing the byte 0xFF serializes fine to bytes but
`String::from_utf8` then rejects the buffer; this failure is not a
`SerializeError` and involves no unknown-length map. -/
theorem claim_C5_encode_errors_cex :
    to_bytes (.vBytes [255]) = .ok [36, 49, 13, 10, 255, 13, 10] ∧
    to_string (.vBytes [255]) = .error .InvalidUtf8 :=
  ⟨rfl, rfl⟩

/-- C5 (amended): `to_bytes` succeeds on every value carrying no 128-bit
integer width (serde itself rejects i128/u128 before the crate's
serializer runs); the serializer's only own error site is
`serialize_map` with an unknown length, which cannot be reached from a
value (a value's map always has a known length).  `to_string` can
additionally fail, with `InvalidUtf8`, exactly when the serialized bytes
are not valid UTF-8. -/
theorem claim_C5_encode_errors :
    (∀ v : Value, NoI128 v → ∃ bs, to_bytes v = .ok bs ∧
      to_string v = (if validUtf8 bs then .ok bs else .error .InvalidUtf8)) ∧
    serialize_map none = .error (.SerializeError "Cannot serialize a map with unknown length") ∧
    (∀ l : Nat, serialize_map (some l) = .ok (37 :: natDec l ++ CRLF)) := by
  refine ⟨?_, rfl, fun l => rfl⟩
  intro v hv
  obtain ⟨bs, hbs⟩ := encode_total (sizeOf v + 1) v (by omega) hv
  refine ⟨bs, hbs, ?_⟩
  unfold to_string
  rw [hbs]

/-- C5 witness: the map `{"k": true}` has a known length, serializes, and
its output is valid UTF-8. -/
theorem claim_C5_encode_errors_witness :
    NoI128 (Value.vMap [([107], .vBool true)]) ∧
    (∃ bs, to_bytes (Value.vMap [([107], .vBool true)]) = .ok bs ∧
      to_string (Value.vMap [([107], .vBool true)]) =
        (if validUtf8 bs then .ok bs else .error .InvalidUtf8)) := by
  have hn : NoI128 (Value.vMap [([107], .vBool true)]) := by
    refine NoI128.nMap ?_
    intro p hp
    simp at hp
    rcases hp with rfl
    exact NoI128.nBool true
  exact ⟨hn, claim_C5_encode_errors.1 _ hn⟩

/-- C6: when an enum target is decoded and the lookahead byte is the Map
(`%`) or Attributes (`|`) tag, a declared pair count ≠ 1 is rejected with
the fatal `DeserializeError` of `EnumDeserializer::variant_seed`,
regardless of the declared variants, the count, or what follows. -/
theorem claim_C6_enum_pair_count (variants : List (List Nat × VariantKind))
    (tg : Nat) (htg : tg = 37 ∨ tg = 124)
    (L : Nat) (hL1 : L ≠ 1) (hL2 : L ≤ USIZE_MAX)
    (fuel : Nat) (hf : 1 ≤ fuel) (rest : List Nat) :
    decodeShape fuel (.sEnum variants) (tg :: (natDec L ++ 13 :: rest)) =
      (.error (.err (.DeserializeError "Expected a single key-value pair for enum variant")),
        13 :: rest) := by
  obtain ⟨f, rfl⟩ : ∃ f, fuel = f + 1 := ⟨fuel - 1, by omega⟩
  rw [decodeShape]
  rcases htg with rfl | rfl
  · simp only [decodeStep]
    rw [Dec.bind_def, Dec.bind_apply_ok (peek_byte_cons 37 _)]
    simp only [prefixToKind?, RespDataKind.isStringFamily]
    rw [if_neg (by simp)]
    rw [if_pos (Or.inl trivial)]
    rw [Dec.bind_def, Dec.bind_apply_ok (expect_byte_cons_self 37 _)]
    rw [Dec.bind_def, Dec.bind_apply_ok (expect_length_natDec hL2 rest)]
    rw [if_pos hL1]
    rfl
  · simp only [decodeStep]
    rw [Dec.bind_def, Dec.bind_apply_ok (peek_byte_cons 124 _)]
    simp only [prefixToKind?, RespDataKind.isStringFamily]
    rw [if_neg (by simp)]
    rw [if_pos (Or.inr trivial)]
    rw [Dec.bind_def, Dec.bind_apply_ok (expect_byte_cons_self 124 _)]
    rw [Dec.bind_def, Dec.bind_apply_ok (expect_length_natDec hL2 rest)]
    rw [if_pos hL1]
    rfl

/-- C6 witness: `%2\r\n` against a one-variant enum. -/
theorem claim_C6_enum_pair_count_witness :
    decodeShape 1 (.sEnum [([97], .unitK)]) (37 :: (natDec 2 ++ 13 :: [10])) =
      (.error (.err (.DeserializeError "Expected a single key-value pair for enum variant")),
        13 :: [10]) :=
  claim_C6_enum_pair_count [([97], .unitK)] 37 (Or.inl rfl) 2 (by decide) (by decide)
    1 (by decide) [10]

/-- C7: a sequence decode whose declared element count exceeds the number
of complete elements present — here the input ends right after the last
complete element — fails with `UnexpectedEnd` rather than returning a
shorter sequence: the consumer keeps calling the element decoder until
the declared count is exhausted, and the element decoder hits the end of
input. -/
theorem claim_C7_short_sequence (elem : Shape) (n : Nat) (vs : List Value)
    (hcount : vs.length < n) (hn : n ≤ USIZE_MAX)
    (hshape : ∀ v ∈ vs, HasShape v elem) (hloss : ∀ v ∈ vs, Lossless v)
    (body : List Nat) (henc : encodeList vs = .ok body)
    (fuel : Nat) (hf : fuelOK fuel (.sSeq elem) = true)
    (hh : headSupported elem = true) :
    decodeShape fuel (.sSeq elem) (42 :: (natDec n ++ 13 :: 10 :: body)) =
      (.error (.err .UnexpectedEnd), []) := by
  cases fuel with
  | zero => simp [fuelOK] at hf
  | succ f =>
    have hfe : fuelOK f elem = true := by
      simp only [fuelOK, fuelOKStep] at hf
      exact hf
    rw [decodeShape]
    simp only [decodeStep]
    rw [Dec.bind_def, Dec.bind_apply_ok (seqHeader_ok hn body)]
    rw [Dec.bind_def,
      Dec.bind_apply_error (decodeCount_short vs n body hcount henc
        (fun v hv bsv r hvenc =>
          decode_encode (sizeOf v + 1) v elem (by omega) (hshape v hv) (hloss v hv)
            bsv hvenc f hfe r)
        (decode_empty f elem hfe hh))]

/-- C7 witness: `*2\r\n#t\r\n` — a declared Array count of 2 with only
one boolean element present fails with `UnexpectedEnd`. -/
theorem claim_C7_short_sequence_witness :
    decodeShape 2 (.sSeq .sBool) (42 :: (natDec 2 ++ 13 :: 10 :: [35, 116, 13, 10])) =
      (.error (.err .UnexpectedEnd), []) := by
  refine claim_C7_short_sequence .sBool 2 [.vBool true] (by decide) (by decide)
    ?_ ?_ [35, 116, 13, 10] rfl 2 rfl rfl
  · intro v hv
    simp at hv
    subst hv
    exact HasShape.hBool true
  · intro v hv
    simp at hv
    subst hv
    exact Lossless.lBool true

/-- C8: the encoder's output for a sequence of unknown length is
`*-1\r\n`, and for every sequence target the decoder rejects exactly that
input: `expect_length` finds no digits at `-1` and fails with
`ExpectedLength`, so a value serialized with unknown length can never be
decoded back as a sequence. -/
theorem claim_C8_unknown_length (s1 : Shape) (fuel : Nat) (hf : 1 ≤ fuel) (rest : List Nat) :
    serialize_seq_header none = [42, 45, 49, 13, 10] ∧
    decodeShape fuel (.sSeq s1) (42 :: 45 :: 49 :: 13 :: 10 :: rest) =
      (.error (.err .ExpectedLength), 45 :: 49 :: 13 :: 10 :: rest) := by
  obtain ⟨f, rfl⟩ : ∃ f, fuel = f + 1 := ⟨fuel - 1, by omega⟩
  refine ⟨rfl, ?_⟩
  rw [decodeShape]
  rfl

/-- C8 witness: booleans as element shape, minimal fuel, empty tail. -/
theorem claim_C8_unknown_length_witness :
    serialize_seq_header none = [42, 45, 49, 13, 10] ∧
    decodeShape 1 (.sSeq .sBool) (42 :: 45 :: 49 :: 13 :: 10 :: []) =
      (.error (.err .ExpectedLength), 45 :: 49 :: 13 :: 10 :: []) :=
  claim_C8_unknown_length .sBool 1 (by decide) []

/-- C9: decoding into a char target fails with a `DeserializeError`
whenever the decoded string payload is longer than one byte (first and
last conjuncts) or empty (second and third conjuncts: the empty payload
`$0\r\n\r\n` and the null-string sentinel `$-1\r\n`, which
`parse_bulk_string` maps to the empty string); consequently every char
whose UTF-8 encoding is longer than one byte (any non-ASCII char) is
encodable but not decodable back (last conjunct). -/
theorem claim_C9_char_decode :
    (∀ (bs rest : List Nat) (fuel : Nat), 1 ≤ fuel → 1 < bs.length →
      bs.length ≤ USIZE_MAX →
      decodeShape fuel .sChar (encBulk bs ++ rest) =
        (.error (.err (.DeserializeError "Expected a single character string")), rest)) ∧
    (∀ (rest : List Nat) (fuel : Nat), 1 ≤ fuel →
      decodeShape fuel .sChar (encBulk [] ++ rest) =
        (.error (.err (.DeserializeError "String is empty, expected a single character")),
          rest)) ∧
    (∀ (rest : List Nat) (fuel : Nat), 1 ≤ fuel →
      decodeShape fuel .sChar (36 :: 45 :: 49 :: 13 :: 10 :: rest) =
        (.error (.err (.DeserializeError "String is empty, expected a single character")),
          rest)) ∧
    (∀ c : Char, 128 ≤ c.toNat →
      ∃ bs, encodeValue (.vChar c) = .ok bs ∧ 1 < (charUtf8 c).length ∧
        ∀ (fuel : Nat), 1 ≤ fuel →
          decodeShape fuel .sChar bs =
            (.error (.err (.DeserializeError "Expected a single character string")), [])) := by
  have hgen : ∀ (bs rest : List Nat) (fuel : Nat), 1 ≤ fuel → 1 < bs.length →
      bs.length ≤ USIZE_MAX →
      decodeShape fuel .sChar (encBulk bs ++ rest) =
        (.error (.err (.DeserializeError "Expected a single character string")), rest) := by
    intro bs rest fuel hfu hlong hlen
    obtain ⟨f, rfl⟩ : ∃ f, fuel = f + 1 := ⟨fuel - 1, by omega⟩
    rw [decodeShape]
    simp only [decodeStep]
    rw [Dec.bind_def, Dec.bind_apply_ok (parse_string_encBulk hlen rest)]
    rw [if_pos hlong]
    rfl
  refine ⟨hgen, ?_, ?_, ?_⟩
  · intro rest fuel hfu
    obtain ⟨f, rfl⟩ : ∃ f, fuel = f + 1 := ⟨fuel - 1, by omega⟩
    rw [decodeShape]
    rfl
  · intro rest fuel hfu
    obtain ⟨f, rfl⟩ : ∃ f, fuel = f + 1 := ⟨fuel - 1, by omega⟩
    rw [decodeShape]
    simp only [decodeStep]
    rw [Dec.bind_def, Dec.bind_apply_ok (parse_string_null rest)]
    rfl
  · intro c hc
    refine ⟨encBulk (charUtf8 c), rfl, charUtf8_multibyte hc, ?_⟩
    intro fuel hfu
    have h := hgen (charUtf8 c) [] fuel hfu (charUtf8_multibyte hc)
      (le_trans charUtf8_len_le (by norm_num [USIZE_MAX]))
    simpa using h

/-- C9 witness: the two-byte payload `ab`, the empty payload, the null
sentinel, and the non-ASCII char `é`. -/
theorem claim_C9_char_decode_witness :
    decodeShape 1 .sChar (encBulk [97, 98] ++ []) =
      (.error (.err (.DeserializeError "Expected a single character string")), []) ∧
    decodeShape 1 .sChar (encBulk [] ++ [99]) =
      (.error (.err (.DeserializeError "String is empty, expected a single character")),
        [99]) ∧
    decodeShape 1 .sChar (36 :: 45 :: 49 :: 13 :: 10 :: [99]) =
      (.error (.err (.DeserializeError "String is empty, expected a single character")),
        [99]) ∧
    (∃ bs, encodeValue (.vChar (Char.ofNat 233)) = .ok bs ∧
      1 < (charUtf8 (Char.ofNat 233)).length ∧
      ∀ (fuel : Nat), 1 ≤ fuel →
        decodeShape fuel .sChar bs =
          (.error (.err (.DeserializeError "Expected a single character string")), [])) :=
  ⟨claim_C9_char_decode.1 [97, 98] [] 1 (by decide) (by decide) (by decide),
   claim_C9_char_decode.2.1 [99] 1 (by decide),
   claim_C9_char_decode.2.2.1 [99] 1 (by decide),
   claim_C9_char_decode.2.2.2 (Char.ofNat 233) (by decide)⟩

/-- C10: the decode cursor only ever advances — after every decode
operation, whether it returns a value or an error, the remaining input is
a contiguous suffix of the remaining input before the call.  Stated for
the whole decode engine at every shape and budget, and for each of the
engine's primitives (`next_byte`, `expect_crlf`, `expect_length`,
`parse_string`, `parse_number`). -/
theorem claim_C10_cursor_advances :
    (∀ (fuel : Nat) (s : Shape) (input : List Nat),
      List.IsSuffix (decodeShape fuel s input).2 input) ∧
    (∀ input : List Nat, List.IsSuffix (next_byte input).2 input) ∧
    (∀ input : List Nat, List.IsSuffix (expect_crlf input).2 input) ∧
    (∀ input : List Nat, List.IsSuffix (expect_length input).2 input) ∧
    (∀ input : List Nat, List.IsSuffix (parse_string input).2 input) ∧
    (∀ (w : NumWidth) (input : List Nat), List.IsSuffix (parse_number w input).2 input) :=
  ⟨fun fuel s => advances_decodeShape fuel s,
   advances_next_byte, advances_expect_crlf, advances_expect_length,
   advances_parse_string, fun w => advances_parse_number w⟩

end Rediserde
